import Mathlib

/-!
# WiVRn video encoder orchestration: slot pacing, IDR throttle, shard fragmentation, async sender

Shallow embedding of `server/encoder/video_encoder.cpp`.

Conventions of the embedding.

* Methods of `VideoEncoder` become functions on an explicit `VideoEncoder` state value.
* `uint64_t` / `size_t` values are natural numbers; where the source relies on unsigned
  wrap-around (`last_idr_frame + idr_throttle`, `max_payload_size - view_info_size`) the
  reduction modulo `2 ^ 64` is written out.
* A `std::span<uint8_t>` is the list of its bytes (a byte is a natural number; the code never
  inspects byte values).
* The collaborators are inputs: the codec backend's virtual `encode` is an argument of `Encode`,
  the session's `send_stream` is a field of `wivrn_session`, readings of
  `os_monotonic_get_ns()` are arguments.
* Calls to collaborators that form the observable behaviour are returned as values: the shards
  passed to `send_stream` (in call order), the arguments given to the backend, the item given to
  `sender::push`, the exception rethrown.
* `assert` statements do not change control flow (release semantics); where a property depends on
  the asserted condition it appears as a hypothesis. Blocking waits are modelled by `Option`:
  `none` means that the call cannot proceed in that state.
* `U_LOG_D`, `dump_time`, mutex locking and condition-variable notifications have no effect on
  the modelled state and are left out.
-/

namespace wivrn

/-- Number of values of a `uint64_t` / `size_t`. -/
def UINT64_RANGE : Nat := 2 ^ 64

/-- Source line 208: `static const uint64_t idr_throttle = 100;`. -/
def idr_throttle : Nat := 100

/-- Subtraction of two `size_t` values (both below `2 ^ 64`) with unsigned wrap-around. -/
def size_sub (a b : Nat) : Nat :=
  if b ≤ a then a - b else a + UINT64_RANGE - b

/-- Modelled from the spec: `video_stream_data_shard::view_info_t`, the per-frame view metadata;
only `display_time` is read by the encoder core, the pose and field-of-view content is carried
along as an uninterpreted number. -/
structure view_info_t where
  display_time : Int
  content : Nat
deriving DecidableEq, Repr

/-- Modelled from the spec: the Timing Record, four timestamps in the headset clock domain; a
field equal to `0` is unset (the source tests `not timing_info.encode_end`). -/
structure timing_info_t where
  encode_begin : Int
  encode_end : Int
  send_begin : Int
  send_end : Int
deriving DecidableEq, Repr

/-- Modelled from the spec: bit of the flag `start_of_slice` in `video_stream_data_shard::flags`. -/
def start_of_slice : Nat := 1

/-- Modelled from the spec: bit of the flag `end_of_slice`. -/
def end_of_slice : Nat := 2

/-- Modelled from the spec: bit of the flag `end_of_frame`. -/
def end_of_frame : Nat := 4

/-- Modelled from the spec: the shard record handed to the transport,
`stream_item_idx, frame_idx, shard_idx, flags, view_info, timing_info, payload`; `shard_idx` is
the per-frame counter of the spec (no width is given for it). -/
structure video_stream_data_shard where
  stream_item_idx : Nat
  frame_idx : Nat
  shard_idx : Nat
  flags : Nat
  payload : List Nat
  view_info : Option view_info_t
  timing_info : Option timing_info_t
deriving DecidableEq, Repr

/-- A shard carries flag `f` when the bit of `f` is set in its `flags`. -/
def video_stream_data_shard.has_flag (sh : video_stream_data_shard) (f : Nat) : Bool :=
  sh.flags &&& f != 0

/-- An exception value travelling through `std::exception_ptr`. -/
abbrev exception := String

/-- Modelled from the spec: the clock translator returned by `wivrn_session::get_offset`. -/
structure clock_offset where
  to_headset : Int → Int

/-- Modelled from the spec: the transport collaborator. `send_stream` consumes one shard and
either returns or throws. -/
structure wivrn_session where
  send_stream : video_stream_data_shard → Except exception Unit
  get_offset : clock_offset

/-- Modelled from the spec: `VideoEncoder::data`, a Pending Send Item: the owning stream (the
`VideoEncoder *` is an index into the table of streams) and the byte span. -/
structure VideoEncoder.data where
  encoder : Nat
  span : List Nat
deriving DecidableEq, Repr

/-- The members of `VideoEncoder` used in `video_encoder.cpp`. `num_slots` is the constant of the
missing header, kept as a value of the state that no operation changes. -/
structure VideoEncoder where
  num_slots : Nat
  stream_idx : Nat
  busy : List Bool
  next_present : Nat
  next_encode : Nat
  sync_needed : Bool
  last_idr_frame : Nat
  shared_sender : Bool
  cnx : wivrn_session
  clock : clock_offset
  timing_info : timing_info_t
  shard : video_stream_data_shard
  video_dump : Option (List Nat)

/-- What one call of `VideoEncoder::Encode` does besides changing the encoder: the arguments the
backend's `encode` was invoked with, the item given to `shared_sender->push`, and the exception
rethrown to the caller. -/
structure EncodeOutcome where
  state : VideoEncoder
  idr : Bool
  slot : Nat
  pushed : Option VideoEncoder.data
  thrown : Option exception

/-- A shard template with every field cleared. -/
def video_stream_data_shard.empty : video_stream_data_shard :=
  { stream_item_idx := 0, frame_idx := 0, shard_idx := 0, flags := 0, payload := [],
    view_info := none, timing_info := none }

/-- Source lines 210-213, `VideoEncoder::VideoEncoder(bool async_send)`:
`last_idr_frame(-idr_throttle)` is `2 ^ 64 - 100` in `uint64_t`. The default member values of
the missing header are modelled from the spec (all slots free, both cursors at 0); the initial
value of `sync_needed` and the session are arguments. -/
def VideoEncoder.new (num_slots stream_idx : Nat) (sync_needed async_send : Bool)
    (cnx : wivrn_session) : VideoEncoder :=
  { num_slots := num_slots
    stream_idx := stream_idx
    busy := List.replicate num_slots false
    next_present := 0
    next_encode := 0
    sync_needed := sync_needed
    last_idr_frame := (UINT64_RANGE - idr_throttle) % UINT64_RANGE
    shared_sender := async_send
    cnx := cnx
    clock := cnx.get_offset
    timing_info := { encode_begin := 0, encode_end := 0, send_begin := 0, send_end := 0 }
    shard := video_stream_data_shard.empty
    video_dump := none }

/-- Source lines 221-224, `VideoEncoder::SyncNeeded`. -/
def VideoEncoder.SyncNeeded (s : VideoEncoder) : VideoEncoder :=
  { s with sync_needed := true }

/-- Source lines 226-234, `VideoEncoder::PresentImage`. `busy[next_present].wait(true)` blocks
while the flag is true: the call proceeds (`some`) only when the flag is false. The backend's
`present_image` works on the GPU image of the slot and does not touch the encoder state. -/
def VideoEncoder.PresentImage (s : VideoEncoder) : Option VideoEncoder :=
  if s.busy.getD s.next_present false then none
  else some { s with
    busy := s.busy.set s.next_present true
    next_present := (s.next_present + 1) % s.num_slots }

/-- Source lines 236-291, `VideoEncoder::Encode`. `encode` is the backend's virtual
`encode(idr, target_timestamp, slot)`: it returns bytes, returns nothing, or throws.
`now_begin` and `now_end` are the readings of `os_monotonic_get_ns()` of lines 259 and 277.
The wait of line 242, `shared_sender->wait_idle(this)`, is a condition on the queue of the
sender (`VideoEncoder.sender.wait_idle`) and leaves the encoder as it is; the item given to
`shared_sender->push` at line 279 is the `pushed` component of the result. -/
def VideoEncoder.Encode (s : VideoEncoder) (cnx : wivrn_session) (view_info : view_info_t)
    (frame_index : Nat)
    (encode : Bool → Int → Nat → Except exception (Option VideoEncoder.data))
    (now_begin now_end : Int) : EncodeOutcome :=
  let s := { s with cnx := cnx }
  let target_timestamp := view_info.display_time
  -- bool idr = sync_needed.exchange(false);
  let idr := s.sync_needed
  let s := { s with sync_needed := false }
  -- Throttle idr to prevent overloading the decoder
  let throttled := idr && decide (frame_index < (s.last_idr_frame + idr_throttle) % UINT64_RANGE)
  let s := if throttled then { s with sync_needed := true } else s
  let idr := if throttled then false else idr
  let s := if idr then { s with last_idr_frame := frame_index } else s
  let s := { s with clock := cnx.get_offset }
  let s := { s with timing_info :=
    { encode_begin := s.clock.to_headset now_begin, encode_end := 0, send_begin := 0,
      send_end := 0 } }
  -- Prepare the video shard template
  let s := { s with shard := { s.shard with
    stream_item_idx := s.stream_idx
    frame_idx := frame_index
    shard_idx := 0
    view_info := some view_info
    timing_info := none } }
  let slot := s.next_encode
  let r := encode idr target_timestamp slot
  let s := match r with
    | Except.ok (some _) =>
      { s with timing_info := { s.timing_info with encode_end := s.clock.to_headset now_end } }
    | _ => s
  let pushed := match r with
    | Except.ok (some d) => some d
    | _ => none
  let ex := match r with
    | Except.error e => some e
    | _ => none
  let s := { s with busy := s.busy.set s.next_encode false }
  let s := { s with next_encode := (s.next_encode + 1) % s.num_slots }
  { state := s, idr := idr, slot := slot, pushed := pushed, thrown := ex }

/-- The `while (begin != end)` loop of `VideoEncoder::SendData`, source lines 313-340. `rest` is
the range `[begin, end)`; the result is the shard template after the loop and the shards passed
to `send_stream`, in call order. Each iteration uses one unit of `fuel`; `none` means that the
fuel ran out before `begin` reached `end`. `max_payload_size` and `view_info_size` are the
constants `video_stream_data_shard::max_payload_size` and `sizeof(view_info_t)` of the missing
header. -/
def SendData_loop (max_payload_size view_info_size : Nat) (cnx : wivrn_session)
    (timing_info : timing_info_t) (eof : Bool) :
    Nat → video_stream_data_shard → List Nat →
      Option (video_stream_data_shard × List video_stream_data_shard)
  | _, shard, [] => some (shard, [])
  | 0, _, _ :: _ => none
  | fuel + 1, shard, b :: bs =>
    let rest := b :: bs
    let limit := size_sub max_payload_size (if shard.view_info.isSome then view_info_size else 0)
    -- auto next = std::min(end, begin + max_payload_size);
    let n := min rest.length limit
    let shard :=
      if n = rest.length then
        let shard := { shard with flags := shard.flags ||| end_of_slice }
        if eof then
          { shard with flags := shard.flags ||| end_of_frame, timing_info := some timing_info }
        else shard
      else shard
    let shard := { shard with payload := rest.take n }
    let sent := shard
    -- try { cnx->send_stream(shard); } catch (...) { /* Ignore network errors */ }
    let _ignored : Unit := match cnx.send_stream shard with
      | Except.ok _ => ()
      | Except.error _ => ()
    let shard := { shard with shard_idx := shard.shard_idx + 1, flags := 0, view_info := none }
    match SendData_loop max_payload_size view_info_size cnx timing_info eof fuel shard
        (rest.drop n) with
    | none => none
    | some (t, out) => some (t, sent :: out)

/-- Source lines 293-343, `VideoEncoder::SendData`. `now_end` and `now_begin` are the readings
of `os_monotonic_get_ns()` of lines 298 and 307. The result is the encoder after the call and
the shards passed to `cnx->send_stream`, in call order; `none` when the loop does not end. The
loop is given `data.length + 1` iterations, enough whenever `max_payload_size` is positive. -/
def VideoEncoder.SendData (max_payload_size view_info_size : Nat) (s : VideoEncoder)
    (data : List Nat) (eof : Bool) (now_end now_begin : Int) :
    Option (VideoEncoder × List video_stream_data_shard) :=
  let s :=
    if eof then
      let s := { s with timing_info := { s.timing_info with send_end := s.clock.to_headset now_end } }
      if s.timing_info.encode_end = 0 then
        { s with timing_info := { s.timing_info with encode_end := s.timing_info.send_end } }
      else s
    else s
  let s := match s.video_dump with
    | some written => { s with video_dump := some (written ++ data) }
    | none => s
  let s :=
    if s.shard.shard_idx = 0 then
      { s with timing_info := { s.timing_info with send_begin := s.clock.to_headset now_begin } }
    else s
  let s := { s with shard := { s.shard with flags := start_of_slice } }
  match SendData_loop max_payload_size view_info_size s.cnx s.timing_info eof
      (data.length + 1) s.shard data with
  | none => none
  | some (t, out) => some ({ s with shard := t }, out)

/-- One `SendData` call of a frame: the byte range, the `end_of_frame` argument and the two clock
readings. -/
structure SendDataCall where
  data : List Nat
  eof : Bool
  now_end : Int
  now_begin : Int

/-- A sequence of `SendData` calls on one encoder; the result is the encoder after the last call
and the shards passed to `send_stream` over all the calls, in call order. -/
def SendData_calls (max_payload_size view_info_size : Nat) :
    VideoEncoder → List SendDataCall → Option (VideoEncoder × List video_stream_data_shard)
  | s, [] => some (s, [])
  | s, c :: cs =>
    match s.SendData max_payload_size view_info_size c.data c.eof c.now_end c.now_begin with
    | none => none
    | some (s1, out1) =>
      match SendData_calls max_payload_size view_info_size s1 cs with
      | none => none
      | some (s2, out2) => some (s2, out1 ++ out2)

/-- The arguments of one `Encode` call, the behaviour of the backend during it included. -/
structure EncodeCall where
  cnx : wivrn_session
  view_info : view_info_t
  frame_index : Nat
  encode : Bool → Int → Nat → Except exception (Option VideoEncoder.data)
  now_begin : Int
  now_end : Int

/-- `Encode` applied to the arguments of an `EncodeCall`. -/
def VideoEncoder.EncodeWith (s : VideoEncoder) (a : EncodeCall) : EncodeOutcome :=
  s.Encode a.cnx a.view_info a.frame_index a.encode a.now_begin a.now_end

/-- A call made on a stream by its owner. -/
inductive Call where
  | SyncNeeded : Call
  | PresentImage : Call
  | Encode : EncodeCall → Call

/-- The backend invocations (frame index, force-keyframe argument) made by a sequence of calls,
in order. A `PresentImage` that would block is not part of an execution and leaves the state as
it is; `Encode` runs whether or not its assertion holds. -/
def backend_calls : VideoEncoder → List Call → List (Nat × Bool)
  | _, [] => []
  | s, Call.SyncNeeded :: cs => backend_calls s.SyncNeeded cs
  | s, Call.PresentImage :: cs => backend_calls (s.PresentImage.getD s) cs
  | s, Call.Encode a :: cs =>
    (a.frame_index, (s.EncodeWith a).idr) :: backend_calls (s.EncodeWith a).state cs

/-- The frame indices of the honored keyframes of a sequence of calls: the `Encode` calls whose
backend invocation had force-keyframe true, in order. -/
def honored_keyframes (s : VideoEncoder) (cs : List Call) : List Nat :=
  ((backend_calls s cs).filter (fun c => c.2)).map (fun c => c.1)

/-- Execution of a sequence of calls that respects the pacing protocol: `PresentImage` is
applied only where it can proceed and `Encode` only where `busy[next_encode]` is true (its
assertion); `none` when the sequence is not such an execution. -/
def run_paced : VideoEncoder → List Call → Option VideoEncoder
  | s, [] => some s
  | s, Call.SyncNeeded :: cs => run_paced s.SyncNeeded cs
  | s, Call.PresentImage :: cs =>
    match s.PresentImage with
    | none => none
    | some s1 => run_paced s1 cs
  | s, Call.Encode a :: cs =>
    if s.busy.getD s.next_encode false then run_paced (s.EncodeWith a).state cs else none

/-- Number of `PresentImage` calls in a sequence. -/
def presentations : List Call → Nat
  | [] => 0
  | Call.PresentImage :: cs => presentations cs + 1
  | _ :: cs => presentations cs

/-- Number of `Encode` calls in a sequence. -/
def encodes : List Call → Nat
  | [] => 0
  | Call.Encode _ :: cs => encodes cs + 1
  | _ :: cs => encodes cs

/-- The member `pending` of `VideoEncoder::sender`, front first. -/
structure VideoEncoder.sender where
  pending : List VideoEncoder.data

/-- Source lines 76-81, `VideoEncoder::sender::push`. -/
def VideoEncoder.sender.push (q : VideoEncoder.sender) (d : VideoEncoder.data) :
    VideoEncoder.sender :=
  { q with pending := q.pending ++ [d] }

/-- Source lines 83-88, `VideoEncoder::sender::wait_idle`: the call returns in the states where
no pending item belongs to `encoder`. -/
def VideoEncoder.sender.wait_idle (q : VideoEncoder.sender) (encoder : Nat) : Option Unit :=
  if q.pending.any (fun d => d.encoder == encoder) then none else some ()

/-- The Async Sender together with the streams its items point to. -/
structure SenderWorld where
  sender : VideoEncoder.sender
  streams : Nat → VideoEncoder

/-- Source lines 53-67: one iteration of the worker loop while stop is not requested. The
second component of the result is the item for which `SendData` was invoked, if any, with the
shards that call passed to the transport. `none` when `SendData` does not return. Items pushed
while `SendData` runs go to the back of the queue, so the item popped is the front read under
the lock. -/
def VideoEncoder.sender.iteration (max_payload_size view_info_size : Nat) (w : SenderWorld)
    (now_end now_begin : Int) :
    Option (SenderWorld × Option (VideoEncoder.data × List video_stream_data_shard)) :=
  match w.sender.pending with
  | [] => some (w, none)
  | d :: rest =>
    if d.span ≠ [] then
      match (w.streams d.encoder).SendData max_payload_size view_info_size d.span true
          now_end now_begin with
      | none => none
      | some (e, out) =>
        some ({ sender := { pending := rest }, streams := Function.update w.streams d.encoder e },
          some (d, out))
    else some (w, none)

/-- What happens to the Async Sender: a stream pushes an item, or the worker runs one iteration
of its loop. -/
inductive SenderEvent where
  | push : VideoEncoder.data → SenderEvent
  | iteration : Int → Int → SenderEvent

/-- The items pushed by a sequence of events, in order. -/
def pushed_items : List SenderEvent → List VideoEncoder.data
  | [] => []
  | SenderEvent.push d :: es => d :: pushed_items es
  | SenderEvent.iteration _ _ :: es => pushed_items es

/-- Runs a sequence of events; the result is the final world and the items for which `SendData`
was invoked, in order. -/
def run_sender (max_payload_size view_info_size : Nat) :
    SenderWorld → List SenderEvent → Option (SenderWorld × List VideoEncoder.data)
  | w, [] => some (w, [])
  | w, SenderEvent.push d :: es =>
    run_sender max_payload_size view_info_size { w with sender := w.sender.push d } es
  | w, SenderEvent.iteration now_end now_begin :: es =>
    match VideoEncoder.sender.iteration max_payload_size view_info_size w now_end now_begin with
    | none => none
    | some (w1, sent) =>
      match run_sender max_payload_size view_info_size w1 es with
      | none => none
      | some (w2, later) => some (w2, (sent.map (fun p => p.1)).toList ++ later)

/-- The pacing invariant of a stream with `n` slots after `p` presentations and `e` encodes:
the cursors are the two counts modulo `n`, the encodes have not overtaken the presentations,
the presentations are at most `n` ahead, and the busy slots are those of the presentations
`e, e + 1, ..., p - 1`, which are still waiting for their encode. -/
def paced (n : Nat) (s : VideoEncoder) (p e : Nat) : Prop :=
  s.num_slots = n ∧ s.busy.length = n ∧ e ≤ p ∧ p ≤ e + n ∧
    s.next_present = p % n ∧ s.next_encode = e % n ∧
    ∀ i, i < n → (s.busy.getD i false = true ↔ ∃ k, e ≤ k ∧ k < p ∧ k % n = i)

/-- Number of bytes carved by one iteration of the loop of `SendData`, `next - begin`. -/
def carve_len (max_payload_size view_info_size : Nat) (shard : video_stream_data_shard)
    (rest : List Nat) : Nat :=
  min rest.length
    (size_sub max_payload_size (if shard.view_info.isSome then view_info_size else 0))

/-- The shard passed to `send_stream` by one iteration of the loop of `SendData` entered with
template `shard` and remaining bytes `rest`. -/
def carve (max_payload_size view_info_size : Nat) (timing_info : timing_info_t) (eof : Bool)
    (shard : video_stream_data_shard) (rest : List Nat) : video_stream_data_shard :=
  { (if carve_len max_payload_size view_info_size shard rest = rest.length then
      (if eof then
        { shard with
          flags := shard.flags ||| end_of_slice ||| end_of_frame
          timing_info := some timing_info }
      else { shard with flags := shard.flags ||| end_of_slice })
    else shard) with
    payload := rest.take (carve_len max_payload_size view_info_size shard rest) }

/-- The shard template at the end of one iteration of the loop of `SendData`, source lines
336-338. -/
def next_template (shard : video_stream_data_shard) : video_stream_data_shard :=
  { shard with shard_idx := shard.shard_idx + 1, flags := 0, view_info := none }

/-- The encoder when `SendData` enters its loop, source lines 296-310: timing record and
diagnostic sink updated, the template's flags set to `start_of_slice`. -/
def before_loop (s : VideoEncoder) (data : List Nat) (eof : Bool) (now_end now_begin : Int) :
    VideoEncoder :=
  let s :=
    if eof then
      let s := { s with timing_info := { s.timing_info with send_end := s.clock.to_headset now_end } }
      if s.timing_info.encode_end = 0 then
        { s with timing_info := { s.timing_info with encode_end := s.timing_info.send_end } }
      else s
    else s
  let s := match s.video_dump with
    | some written => { s with video_dump := some (written ++ data) }
    | none => s
  let s :=
    if s.shard.shard_idx = 0 then
      { s with timing_info := { s.timing_info with send_begin := s.clock.to_headset now_begin } }
    else s
  { s with shard := { s.shard with flags := start_of_slice } }

/-- A session whose transport accepts every shard and whose clock translation is the identity. -/
def example_session : wivrn_session :=
  { send_stream := fun _ => Except.ok (), get_offset := { to_headset := fun t => t } }

/-- A session whose transport fails on every shard. -/
def failing_session : wivrn_session :=
  { send_stream := fun _ => Except.error "network unreachable"
    get_offset := { to_headset := fun t => t } }

/-- A freshly constructed two-slot stream with a keyframe request pending. -/
def example_stream : VideoEncoder :=
  VideoEncoder.new 2 0 true true example_session

/-- The example stream after one `PresentImage`. -/
def example_presented : VideoEncoder :=
  example_stream.PresentImage.getD example_stream

/-- A backend whose `encode` always throws. -/
def failing_backend : Bool → Int → Nat → Except exception (Option VideoEncoder.data) :=
  fun _ _ _ => Except.error "device lost"

/-- A backend whose `encode` returns three bytes for stream 0. -/
def example_backend : Bool → Int → Nat → Except exception (Option VideoEncoder.data) :=
  fun _ _ _ => Except.ok (some { encoder := 0, span := [7, 8, 9] })

/-- Some view metadata. -/
def example_view_info : view_info_t :=
  { display_time := 1000, content := 0 }

/-- An `Encode` call at the given frame index on the example session and backend. -/
def encode_at (frame_index : Nat) : Call :=
  Call.Encode
    { cnx := example_session, view_info := example_view_info, frame_index := frame_index
      encode := example_backend, now_begin := 10, now_end := 20 }

/-- Keyframe requests answered at frame 5, throttled at frame 50 and answered at frame 105. -/
def throttled_calls : List Call :=
  [Call.SyncNeeded, encode_at 5, Call.SyncNeeded, encode_at 50, encode_at 105]

/-- Keyframe requests at the two frame indices `2 ^ 64 - 50` and `2 ^ 64 - 49`. -/
def wrapping_calls : List Call :=
  [Call.SyncNeeded, encode_at 18446744073709551566, Call.SyncNeeded,
    encode_at 18446744073709551567]

/-- Two presentations on a two-slot stream, with no encode yet. -/
def two_presentations : List Call :=
  [Call.PresentImage, Call.SyncNeeded, Call.PresentImage]

/-- The example stream with an empty shard template: index 0, no view metadata. -/
def plain_stream : VideoEncoder :=
  { example_stream with cnx := failing_session }

/-- The example stream after `PresentImage` and `Encode` of frame 7: the template is reset and
carries the view metadata. -/
def encoded_stream : VideoEncoder :=
  (example_presented.Encode failing_session example_view_info 7 example_backend 10 20).state

/-- The arguments of the `Encode` call that produces `encoded_stream`. -/
def example_encode : EncodeCall :=
  { cnx := failing_session, view_info := example_view_info, frame_index := 7
    encode := example_backend, now_begin := 10, now_end := 20 }

/-- A first slice of five bytes, not the end of the frame. -/
def first_slice : SendDataCall :=
  { data := [1, 2, 3, 4, 5], eof := false, now_end := 30, now_begin := 40 }

/-- A last slice of one byte, the end of the frame. -/
def last_slice : SendDataCall :=
  { data := [6], eof := true, now_end := 50, now_begin := 60 }

/-- The frame of `encoded_stream` after its first slice was sent with payload limit 4 and view
metadata of size 1. -/
def open_frame : Option (VideoEncoder × List video_stream_data_shard) :=
  SendData_calls 4 1 (example_presented.EncodeWith example_encode).state [first_slice]

/-- An Async Sender with an empty queue, every stream being `encoded_stream`. -/
def idle_world : SenderWorld :=
  { sender := { pending := [] }, streams := fun _ => encoded_stream }

/-- An Async Sender whose front item has an empty byte span. -/
def stalled_world : SenderWorld :=
  { sender := { pending := [{ encoder := 0, span := [] }, { encoder := 1, span := [1, 2] }] }
    streams := fun _ => encoded_stream }

/-- Two pushes by streams 0 and 1 with worker iterations in between. -/
def sender_events : List SenderEvent :=
  [SenderEvent.iteration 30 40, SenderEvent.push { encoder := 0, span := [1, 2, 3, 4, 5] },
    SenderEvent.push { encoder := 1, span := [6] }, SenderEvent.iteration 50 60]

/-! ## Encode: bookkeeping around the backend call -/

/-- The slot bookkeeping of `Encode` does not depend on the keyframe decision or on what the
backend does. -/
theorem Encode_slots (s : VideoEncoder) (cnx : wivrn_session) (view_info : view_info_t)
    (frame_index : Nat) (encode : Bool → Int → Nat → Except exception (Option VideoEncoder.data))
    (now_begin now_end : Int) :
    (s.Encode cnx view_info frame_index encode now_begin now_end).state.busy
        = s.busy.set s.next_encode false ∧
      (s.Encode cnx view_info frame_index encode now_begin now_end).state.next_encode
        = (s.next_encode + 1) % s.num_slots ∧
      (s.Encode cnx view_info frame_index encode now_begin now_end).state.next_present
        = s.next_present ∧
      (s.Encode cnx view_info frame_index encode now_begin now_end).state.num_slots
        = s.num_slots ∧
      (s.Encode cnx view_info frame_index encode now_begin now_end).slot = s.next_encode := by
  unfold VideoEncoder.Encode
  by_cases h1 : s.sync_needed = true <;>
  by_cases h2 : frame_index < (s.last_idr_frame + idr_throttle) % UINT64_RANGE <;>
  simp [h1, h2] <;> split <;> simp

/-- The keyframe decision of `Encode`: the argument given to the backend and the throttle state
after the call. -/
theorem Encode_idr (s : VideoEncoder) (cnx : wivrn_session) (view_info : view_info_t)
    (frame_index : Nat) (encode : Bool → Int → Nat → Except exception (Option VideoEncoder.data))
    (now_begin now_end : Int) :
    (s.Encode cnx view_info frame_index encode now_begin now_end).idr
        = (s.sync_needed &&
            !decide (frame_index < (s.last_idr_frame + idr_throttle) % UINT64_RANGE)) ∧
      (s.Encode cnx view_info frame_index encode now_begin now_end).state.sync_needed
        = (s.sync_needed &&
            decide (frame_index < (s.last_idr_frame + idr_throttle) % UINT64_RANGE)) ∧
      (s.Encode cnx view_info frame_index encode now_begin now_end).state.last_idr_frame
        = (if (s.Encode cnx view_info frame_index encode now_begin now_end).idr
            then frame_index else s.last_idr_frame) := by
  unfold VideoEncoder.Encode
  by_cases h1 : s.sync_needed = true <;>
  by_cases h2 : frame_index < (s.last_idr_frame + idr_throttle) % UINT64_RANGE <;>
  simp [h1, h2] <;> split <;> simp

/-- The shard template after `Encode`: index 0, the view metadata of the frame, no timing
record. -/
theorem Encode_shard (s : VideoEncoder) (cnx : wivrn_session) (view_info : view_info_t)
    (frame_index : Nat) (encode : Bool → Int → Nat → Except exception (Option VideoEncoder.data))
    (now_begin now_end : Int) :
    (s.Encode cnx view_info frame_index encode now_begin now_end).state.shard.shard_idx = 0 ∧
      (s.Encode cnx view_info frame_index encode now_begin now_end).state.shard.view_info
        = some view_info ∧
      (s.Encode cnx view_info frame_index encode now_begin now_end).state.shard.timing_info
        = none ∧
      (s.Encode cnx view_info frame_index encode now_begin now_end).state.shard.frame_idx
        = frame_index := by
  unfold VideoEncoder.Encode
  by_cases h1 : s.sync_needed = true <;>
  by_cases h2 : frame_index < (s.last_idr_frame + idr_throttle) % UINT64_RANGE <;>
  simp [h1, h2] <;> split <;> simp

/-- What `Encode` hands back: the exception of the backend, or the item to push. -/
theorem Encode_thrown (s : VideoEncoder) (cnx : wivrn_session) (view_info : view_info_t)
    (frame_index : Nat) (encode : Bool → Int → Nat → Except exception (Option VideoEncoder.data))
    (now_begin now_end : Int) :
    (s.Encode cnx view_info frame_index encode now_begin now_end).thrown
      = (match encode (s.Encode cnx view_info frame_index encode now_begin now_end).idr
            view_info.display_time s.next_encode with
          | Except.error e => some e
          | _ => none) := by
  unfold VideoEncoder.Encode
  by_cases h1 : s.sync_needed = true <;>
  by_cases h2 : frame_index < (s.last_idr_frame + idr_throttle) % UINT64_RANGE <;>
  simp [h1, h2]

/-- C1. When the slot at the encode cursor is busy and the backend's `encode` fails with an
error `e`, `Encode` rethrows `e` to the caller; afterwards the busy flag of that slot is false,
`next_encode` is `(next_encode + 1) mod num_slots`, and the busy flags of all other slots and
`next_present` are as before. -/
theorem C1_encode_failure_frees_slot (s : VideoEncoder) (cnx : wivrn_session)
    (view_info : view_info_t) (frame_index : Nat)
    (encode : Bool → Int → Nat → Except exception (Option VideoEncoder.data))
    (now_begin now_end : Int) (e : exception)
    (hbusy : s.busy[s.next_encode]? = some true)
    (hfail : ∀ idr, encode idr view_info.display_time s.next_encode = Except.error e) :
    (s.Encode cnx view_info frame_index encode now_begin now_end).thrown = some e ∧
      (s.Encode cnx view_info frame_index encode now_begin now_end).state.busy[s.next_encode]?
        = some false ∧
      (s.Encode cnx view_info frame_index encode now_begin now_end).state.next_encode
        = (s.next_encode + 1) % s.num_slots ∧
      (∀ i, i ≠ s.next_encode →
        (s.Encode cnx view_info frame_index encode now_begin now_end).state.busy[i]?
          = s.busy[i]?) ∧
      (s.Encode cnx view_info frame_index encode now_begin now_end).state.busy.length
        = s.busy.length ∧
      (s.Encode cnx view_info frame_index encode now_begin now_end).state.next_present
        = s.next_present := by
  obtain ⟨hb, hn, hp, -, -⟩ := Encode_slots s cnx view_info frame_index encode now_begin now_end
  have hlt : s.next_encode < s.busy.length := by
    rcases Nat.lt_or_ge s.next_encode s.busy.length with h | h
    · exact h
    · rw [List.getElem?_eq_none h] at hbusy
      exact absurd hbusy (by simp)
  refine ⟨?_, ?_, hn, ?_, ?_, hp⟩
  · rw [Encode_thrown, hfail]
  · rw [hb]
    simp [List.getElem?_set, hlt]
  · intro i hi
    rw [hb]
    simp [List.getElem?_set, Ne.symm hi]
  · rw [hb]
    simp

/-- C1 on the example stream after one presentation, with a backend that throws. -/
theorem C1_encode_failure_frees_slot_witness :
    example_presented.busy[example_presented.next_encode]? = some true ∧
      (example_presented.Encode example_session example_view_info 0 failing_backend 10 20).thrown
        = some "device lost" :=
  ⟨by decide,
    (C1_encode_failure_frees_slot example_presented example_session example_view_info 0
      failing_backend 10 20 "device lost" (by decide) (fun _ => rfl)).1⟩

/-- C3. The keyframe decision of one `Encode` call with frame index `f`, the comparison
`f < last_idr_frame + 100` being the one the source evaluates in `uint64_t`. A pending request
with `f < last_idr_frame + 100`: the backend gets force-keyframe false, the request stays
pending, `last_idr_frame` is unchanged. A pending request otherwise: the backend gets
force-keyframe true, `last_idr_frame` becomes `f`, the request is no longer pending. No pending
request: the backend gets force-keyframe false and `last_idr_frame` is unchanged. Hence a
request that was pending and is not pending after the call was answered by a keyframe. The
`uint64_t` comparison is the plain one whenever `last_idr_frame + 100` is below `2 ^ 64`. -/
theorem C3_keyframe_decision (s : VideoEncoder) (cnx : wivrn_session)
    (view_info : view_info_t) (f : Nat)
    (encode : Bool → Int → Nat → Except exception (Option VideoEncoder.data))
    (now_begin now_end : Int) :
    (s.sync_needed = true ∧ f < (s.last_idr_frame + idr_throttle) % UINT64_RANGE →
        (s.Encode cnx view_info f encode now_begin now_end).idr = false ∧
        (s.Encode cnx view_info f encode now_begin now_end).state.sync_needed = true ∧
        (s.Encode cnx view_info f encode now_begin now_end).state.last_idr_frame
          = s.last_idr_frame) ∧
      (s.sync_needed = true ∧ ¬ f < (s.last_idr_frame + idr_throttle) % UINT64_RANGE →
        (s.Encode cnx view_info f encode now_begin now_end).idr = true ∧
        (s.Encode cnx view_info f encode now_begin now_end).state.last_idr_frame = f ∧
        (s.Encode cnx view_info f encode now_begin now_end).state.sync_needed = false) ∧
      (s.sync_needed = false →
        (s.Encode cnx view_info f encode now_begin now_end).idr = false ∧
        (s.Encode cnx view_info f encode now_begin now_end).state.last_idr_frame
          = s.last_idr_frame) ∧
      (s.sync_needed = true →
        (s.Encode cnx view_info f encode now_begin now_end).state.sync_needed = false →
        (s.Encode cnx view_info f encode now_begin now_end).idr = true) ∧
      (s.last_idr_frame + idr_throttle < UINT64_RANGE →
        (f < (s.last_idr_frame + idr_throttle) % UINT64_RANGE ↔ f < s.last_idr_frame + 100)) := by
  obtain ⟨hi, hs, hl⟩ := Encode_idr s cnx view_info f encode now_begin now_end
  rw [hl, hi, hs]
  refine ⟨?_, ?_, ?_, ?_, fun hlt => by rw [Nat.mod_eq_of_lt hlt]; rfl⟩ <;>
  by_cases h1 : s.sync_needed = true <;>
  by_cases h2 : f < (s.last_idr_frame + idr_throttle) % UINT64_RANGE <;>
  simp [h1, h2]

/-- C3 on the example stream: the first request of a fresh stream is answered at frame 5. -/
theorem C3_keyframe_decision_witness :
    (example_presented.Encode example_session example_view_info 5 example_backend 10 20).idr
        = true ∧
      (example_presented.Encode example_session example_view_info 5 example_backend
        10 20).state.last_idr_frame = 5 ∧
      (example_presented.Encode example_session example_view_info 5 example_backend
        10 20).state.sync_needed = false :=
  (C3_keyframe_decision example_presented example_session example_view_info 5 example_backend
    10 20).2.1 ⟨by decide, by decide⟩

/-! ## IDR throttle over sequences of calls -/

theorem SyncNeeded_last_idr_frame (s : VideoEncoder) :
    s.SyncNeeded.last_idr_frame = s.last_idr_frame := rfl

theorem PresentImage_getD_last_idr_frame (s : VideoEncoder) :
    (s.PresentImage.getD s).last_idr_frame = s.last_idr_frame := by
  unfold VideoEncoder.PresentImage
  split <;> rfl

/-- Starting from any state, every honored keyframe is at least `(g + 100) mod 2 ^ 64`, where
`g` is the frame of the honored keyframe before it, or `last_idr_frame` of the start state. -/
theorem honored_keyframes_chain (cs : List Call) :
    ∀ s : VideoEncoder,
      List.Chain (fun f1 f2 => (f1 + idr_throttle) % UINT64_RANGE ≤ f2) s.last_idr_frame
        (honored_keyframes s cs) := by
  induction cs with
  | nil => intro s; exact List.Chain.nil
  | cons c cs ih =>
    intro s
    cases c with
    | SyncNeeded => exact ih s.SyncNeeded
    | PresentImage =>
      have h := ih (s.PresentImage.getD s)
      rw [PresentImage_getD_last_idr_frame] at h
      exact h
    | Encode a =>
      obtain ⟨hi, -, hl⟩ :=
        Encode_idr s a.cnx a.view_info a.frame_index a.encode a.now_begin a.now_end
      have h := ih (s.EncodeWith a).state
      by_cases hidr : (s.EncodeWith a).idr = true
      · have hl2 : (s.EncodeWith a).state.last_idr_frame = a.frame_index := by
          unfold VideoEncoder.EncodeWith at hidr ⊢
          rw [hl, if_pos hidr]
        have hge : (s.last_idr_frame + idr_throttle) % UINT64_RANGE ≤ a.frame_index := by
          unfold VideoEncoder.EncodeWith at hidr
          rw [hi] at hidr
          simp at hidr
          exact hidr.2
        rw [hl2] at h
        simp only [honored_keyframes, backend_calls, List.filter_cons, hidr, if_true,
          List.map_cons] at h ⊢
        exact List.Chain.cons hge h
      · have hl2 : (s.EncodeWith a).state.last_idr_frame = s.last_idr_frame := by
          unfold VideoEncoder.EncodeWith at hidr ⊢
          rw [hl, if_neg hidr]
        rw [hl2] at h
        simp only [honored_keyframes, backend_calls, List.filter_cons, hidr] at h ⊢
        exact h

/-- C2, as the code has it. On a freshly constructed stream and for every sequence of
`SyncNeeded`, `PresentImage` and `Encode` calls, two consecutive honored keyframes at frame
indices `f1` and then `f2` satisfy `f2 ≥ (f1 + 100) mod 2 ^ 64`; so `f2 ≥ f1 + 100` whenever
`f1 + 100` does not wrap around in `uint64_t`. -/
theorem C2_keyframes_throttled (num_slots stream_idx : Nat) (sync_needed async_send : Bool)
    (cnx : wivrn_session) (cs : List Call) (before after : List Nat) (f1 f2 : Nat)
    (h : honored_keyframes (VideoEncoder.new num_slots stream_idx sync_needed async_send cnx) cs
      = before ++ f1 :: f2 :: after) :
    (f1 + 100) % 2 ^ 64 ≤ f2 ∧ (f1 + 100 < 2 ^ 64 → f1 + 100 ≤ f2) := by
  have hc := (honored_keyframes_chain cs
    (VideoEncoder.new num_slots stream_idx sync_needed async_send cnx))
  rw [h] at hc
  have hc2 : List.Chain' (fun f1 f2 => (f1 + idr_throttle) % UINT64_RANGE ≤ f2)
      (f1 :: f2 :: after) :=
    (List.Chain'.tail (show List.Chain' _ (_ :: (before ++ f1 :: f2 :: after)) from hc)).right_of_append
  have hr : (f1 + 100) % 2 ^ 64 ≤ f2 := (List.chain'_cons.mp hc2).1
  exact ⟨hr, fun hlt => by rwa [Nat.mod_eq_of_lt hlt] at hr⟩

/-- C2 on requests at frames 5, 50 and 105: keyframes at 5 and 105. -/
theorem C2_keyframes_throttled_witness :
    honored_keyframes (VideoEncoder.new 2 0 true true example_session) throttled_calls
        = [] ++ 5 :: 105 :: [] ∧
      ((5 + 100) % 2 ^ 64 ≤ 105 ∧ (5 + 100 < 2 ^ 64 → 5 + 100 ≤ 105)) :=
  ⟨by decide,
    C2_keyframes_throttled 2 0 true true example_session throttled_calls [] [] 5 105
      (by decide)⟩

/-- C2 as stated fails at the top of the `uint64_t` range: on a fresh stream, keyframe requests
at frames `2 ^ 64 - 50` and `2 ^ 64 - 49` are both honored, one frame apart. -/
theorem C2_counterexample :
    honored_keyframes (VideoEncoder.new 2 0 true true example_session) wrapping_calls
        = [18446744073709551566, 18446744073709551567] ∧
      ¬ 18446744073709551566 + 100 ≤ 18446744073709551567 := by
  decide

/-! ## Slot pacing -/

theorem getD_set (l : List Bool) (i j : Nat) (v d : Bool) :
    (l.set i v).getD j d = if i = j ∧ i < l.length then v else l.getD j d := by
  simp only [List.getD_eq_getElem?_getD, List.getElem?_set]
  by_cases hij : i = j
  · subst hij
    by_cases hlt : i < l.length
    · simp [hlt]
    · simp [hlt, List.getElem?_eq_none (Nat.le_of_not_lt hlt)]
  · simp [hij]

/-- Two numbers less than `n` apart are in different residue classes modulo `n`. -/
theorem mod_ne_of_lt_of_lt_add (n a b : Nat) (hab : a < b) (hbn : b < a + n) :
    a % n ≠ b % n := by
  intro h
  have h0 : (b - a) % n = 0 := Nat.sub_mod_eq_zero_of_mod_eq h.symm
  rw [Nat.mod_eq_of_lt (by omega)] at h0
  omega

theorem paced_new (n stream_idx : Nat) (sync_needed async_send : Bool) (cnx : wivrn_session)
    (hn : 0 < n) : paced n (VideoEncoder.new n stream_idx sync_needed async_send cnx) 0 0 := by
  refine ⟨rfl, by simp [VideoEncoder.new], le_refl _, by omega, by simp [VideoEncoder.new],
    by simp [VideoEncoder.new], ?_⟩
  intro i hi
  constructor
  · intro h
    simp [VideoEncoder.new, List.getD_eq_getElem?_getD, List.getElem?_replicate, hi] at h
  · rintro ⟨k, h1, h2, -⟩
    omega

theorem paced_SyncNeeded (n : Nat) (s : VideoEncoder) (p e : Nat) (h : paced n s p e) :
    paced n s.SyncNeeded p e := h

theorem paced_PresentImage (n : Nat) (s s1 : VideoEncoder) (p e : Nat) (hn : 0 < n)
    (h : paced n s p e) (hs : s.PresentImage = some s1) : paced n s1 (p + 1) e := by
  obtain ⟨h1, h2, h3, h4, h5, h6, h7⟩ := h
  unfold VideoEncoder.PresentImage at hs
  split at hs
  · exact absurd hs (by simp)
  · rename_i hfree
    have hs1 : s1 = { s with busy := s.busy.set s.next_present true
                             next_present := (s.next_present + 1) % s.num_slots } :=
      (Option.some.inj hs).symm
    have hpn : p % n < n := Nat.mod_lt _ hn
    have hlt : p < e + n := by
      rcases Nat.lt_or_ge p (e + n) with hlt | hge
      · exact hlt
      · exfalso
        apply hfree
        rw [h5]
        refine (h7 (p % n) hpn).mpr ⟨e, le_refl _, by omega, ?_⟩
        have : p = e + n := by omega
        rw [this, Nat.add_mod_right]
    subst hs1
    refine ⟨h1, by simpa using h2, by omega, by omega, ?_, h6, ?_⟩
    · show (s.next_present + 1) % s.num_slots = (p + 1) % n
      rw [h1, h5, Nat.mod_add_mod]
    · intro i hi
      show (s.busy.set s.next_present true).getD i false = true ↔ _
      rw [getD_set, h5, h2]
      by_cases hip : p % n = i
      · simp only [hip, hi, and_self, if_true, true_iff]
        exact ⟨p, by omega, by omega, hip⟩
      · simp only [hip, false_and, if_false]
        rw [h7 i hi]
        constructor
        · rintro ⟨k, hk1, hk2, hk3⟩
          exact ⟨k, hk1, by omega, hk3⟩
        · rintro ⟨k, hk1, hk2, hk3⟩
          refine ⟨k, hk1, ?_, hk3⟩
          rcases Nat.lt_or_ge k p with hlt2 | hge
          · exact hlt2
          · have : k = p := by omega
            subst this
            exact absurd hk3 hip

theorem paced_Encode (n : Nat) (s : VideoEncoder) (a : EncodeCall) (p e : Nat) (hn : 0 < n)
    (h : paced n s p e) (hbusy : s.busy.getD s.next_encode false = true) :
    paced n (s.EncodeWith a).state p (e + 1) := by
  obtain ⟨h1, h2, h3, h4, h5, h6, h7⟩ := h
  obtain ⟨hb, hne, hnp, hns, -⟩ :=
    Encode_slots s a.cnx a.view_info a.frame_index a.encode a.now_begin a.now_end
  have hen : e % n < n := Nat.mod_lt _ hn
  have hlt : e < p := by
    rw [h6] at hbusy
    obtain ⟨k, hk1, hk2, -⟩ := (h7 (e % n) hen).mp hbusy
    omega
  unfold VideoEncoder.EncodeWith
  refine ⟨by rw [hns, h1], by rw [hb]; simpa using h2, by omega, by omega, by rw [hnp, h5], ?_, ?_⟩
  · rw [hne, h1, h6, Nat.mod_add_mod]
  · intro i hi
    rw [hb, getD_set, h6, h2]
    by_cases hie : e % n = i
    · simp only [hie, hi, and_self, if_true, Bool.false_eq_true, false_iff]
      rintro ⟨k, hk1, hk2, hk3⟩
      exact mod_ne_of_lt_of_lt_add n e k (by omega) (by omega) (by rw [hie, hk3])
    · simp only [hie, false_and, if_false]
      rw [h7 i hi]
      constructor
      · rintro ⟨k, hk1, hk2, hk3⟩
        refine ⟨k, ?_, hk2, hk3⟩
        rcases Nat.lt_or_ge e k with hlt2 | hge
        · exact hlt2
        · have : k = e := by omega
          subst this
          exact absurd hk3 hie
      · rintro ⟨k, hk1, hk2, hk3⟩
        exact ⟨k, by omega, hk2, hk3⟩

/-- The pacing invariant is kept by every execution that respects the protocol. -/
theorem paced_run (n : Nat) (hn : 0 < n) (cs : List Call) :
    ∀ (s s1 : VideoEncoder) (p e : Nat), paced n s p e → run_paced s cs = some s1 →
      paced n s1 (p + presentations cs) (e + encodes cs) := by
  induction cs with
  | nil =>
    intro s s1 p e h hr
    simp only [run_paced, Option.some.injEq] at hr
    subst hr
    exact h
  | cons c cs ih =>
    intro s s1 p e h hr
    cases c with
    | SyncNeeded =>
      exact ih s.SyncNeeded s1 p e (paced_SyncNeeded n s p e h) hr
    | PresentImage =>
      simp only [run_paced] at hr
      split at hr
      · exact absurd hr (by simp)
      · rename_i s2 hs2
        have h2 := ih s2 s1 (p + 1) e (paced_PresentImage n s s2 p e hn h hs2) hr
        simp only [presentations, encodes]
        rw [show p + (presentations cs + 1) = p + 1 + presentations cs by omega]
        exact h2
    | Encode a =>
      simp only [run_paced] at hr
      split at hr
      · rename_i hbusy
        have h2 := ih (s.EncodeWith a).state s1 p (e + 1) (paced_Encode n s a p e hn h hbusy) hr
        simp only [presentations, encodes]
        rw [show e + (encodes cs + 1) = e + 1 + encodes cs by omega]
        exact h2
      · exact absurd hr (by simp)

/-- With `n` presentations outstanding the slot at the presentation cursor is busy, so
`PresentImage` cannot proceed, and that slot is the one at the encode cursor. -/
theorem paced_full (n : Nat) (hn : 0 < n) (s : VideoEncoder) (p e : Nat) (h : paced n s p e)
    (hfull : p = e + n) :
    s.PresentImage = none ∧ s.next_present = s.next_encode ∧
      s.busy.getD s.next_encode false = true := by
  obtain ⟨h1, h2, h3, h4, h5, h6, h7⟩ := h
  have hcur : s.next_present = s.next_encode := by
    rw [h5, h6, hfull, Nat.add_mod_right]
  have hb : s.busy.getD s.next_encode false = true := by
    rw [h6]
    exact (h7 (e % n) (Nat.mod_lt _ hn)).mpr ⟨e, le_refl _, by omega, rfl⟩
  refine ⟨?_, hcur, hb⟩
  unfold VideoEncoder.PresentImage
  rw [hcur, hb]
  simp

/-- With fewer than `n` presentations outstanding `PresentImage` proceeds. -/
theorem paced_not_full (n : Nat) (s : VideoEncoder) (p e : Nat) (h : paced n s p e)
    (hlt : p < e + n) : (s.PresentImage).isSome = true := by
  obtain ⟨h1, h2, h3, h4, h5, h6, h7⟩ := h
  have hn : 0 < n := by omega
  have hfree : ¬ s.busy.getD s.next_present false = true := by
    rw [h5, h7 (p % n) (Nat.mod_lt _ hn)]
    rintro ⟨k, hk1, hk2, hk3⟩
    exact mod_ne_of_lt_of_lt_add n k p hk2 (by omega) hk3
  unfold VideoEncoder.PresentImage
  rw [if_neg hfree]
  rfl

theorem run_paced_append (cs ds : List Call) :
    ∀ s : VideoEncoder,
      run_paced s (cs ++ ds) = (run_paced s cs).bind (fun s1 => run_paced s1 ds) := by
  induction cs with
  | nil => intro s; rfl
  | cons c cs ih =>
    intro s
    cases c with
    | SyncNeeded => exact ih s.SyncNeeded
    | PresentImage =>
      simp only [List.cons_append, run_paced]
      split
      · rfl
      · exact ih _
    | Encode a =>
      simp only [List.cons_append, run_paced]
      split
      · exact ih _
      · rfl

/-- C4. On a stream with `n ≥ 1` slots, started with all slots free and both cursors at 0, after
every sequence of calls in which each `PresentImage` could proceed and each `Encode` found
`busy[next_encode]` true, the presentations not yet followed by an encode are at most `n`. When
they are `n`, `PresentImage` cannot proceed, and stays so over any further calls without an
`Encode`; the busy slot it waits for is the oldest outstanding one, at the encode cursor, and
after one `Encode`, which clears that flag, `PresentImage` proceeds. -/
theorem C4_at_most_n_outstanding (n stream_idx : Nat) (sync_needed async_send : Bool)
    (cnx : wivrn_session) (cs : List Call) (s : VideoEncoder) (hn : 1 ≤ n)
    (hrun : run_paced (VideoEncoder.new n stream_idx sync_needed async_send cnx) cs = some s) :
    encodes cs ≤ presentations cs ∧ presentations cs - encodes cs ≤ n ∧
      (presentations cs - encodes cs = n →
        s.PresentImage = none ∧
        (∀ ds, encodes ds = 0 → run_paced s (ds ++ [Call.PresentImage]) = none) ∧
        s.next_present = s.next_encode ∧ s.next_encode = encodes cs % n ∧
        s.busy.getD s.next_encode false = true ∧
        ∀ a : EncodeCall,
          (s.EncodeWith a).state.busy.getD s.next_encode true = false ∧
          ((s.EncodeWith a).state.PresentImage).isSome = true) := by
  have hp := paced_run n hn cs _ s 0 0
    (paced_new n stream_idx sync_needed async_send cnx hn) hrun
  simp only [Nat.zero_add] at hp
  have hp0 := hp
  obtain ⟨h1, h2, h3, h4, h5, h6, h7⟩ := hp
  refine ⟨h3, by omega, ?_⟩
  intro hfull
  have hfull2 : presentations cs = encodes cs + n := by omega
  obtain ⟨hblock, hcur, hb⟩ := paced_full n hn s _ _ hp0 hfull2
  refine ⟨hblock, ?_, hcur, h6, hb, ?_⟩
  · intro ds hds
    rw [run_paced_append]
    cases hr : run_paced s ds with
    | none => rfl
    | some s2 =>
      have hp2 := paced_run n hn ds s s2 _ _ hp0 hr
      rw [hds, Nat.add_zero] at hp2
      have hle : presentations cs + presentations ds ≤ encodes cs + n := hp2.2.2.2.1
      have hz : presentations ds = 0 := by omega
      rw [hz, Nat.add_zero] at hp2
      simp only [Option.bind, run_paced]
      rw [(paced_full n hn s2 _ _ hp2 hfull2).1]
  · intro a
    have hp3 := paced_Encode n s a _ _ hn hp0 hb
    refine ⟨?_, paced_not_full n _ _ _ hp3 (by omega)⟩
    have hb2 := (Encode_slots s a.cnx a.view_info a.frame_index a.encode a.now_begin
      a.now_end).1
    unfold VideoEncoder.EncodeWith
    rw [hb2, getD_set]
    have hlt : s.next_encode < s.busy.length := by
      rw [h6, h2]
      exact Nat.mod_lt _ hn
    simp [hlt]

/-- C4 on a two-slot stream after two presentations. -/
theorem C4_at_most_n_outstanding_witness :
    (1 ≤ 2 ∧
      (run_paced (VideoEncoder.new 2 0 true true example_session) two_presentations).isSome
        = true) ∧
      presentations two_presentations - encodes two_presentations ≤ 2 :=
  ⟨⟨by decide, by decide⟩,
    (C4_at_most_n_outstanding 2 0 true true example_session two_presentations
      ((run_paced (VideoEncoder.new 2 0 true true example_session) two_presentations).get
        (by decide))
      (by decide) (by simp)).2.1⟩

/-! ## The fragmentation loop of SendData -/

theorem SendData_loop_nil (P V : Nat) (cnx : wivrn_session) (ti : timing_info_t) (eof : Bool)
    (fuel : Nat) (sh : video_stream_data_shard) :
    SendData_loop P V cnx ti eof fuel sh [] = some (sh, []) := by
  cases fuel <;> rfl

/-- One iteration of the loop, in terms of `carve`, `carve_len` and `next_template`. -/
theorem SendData_loop_succ (P V : Nat) (cnx : wivrn_session) (ti : timing_info_t) (eof : Bool)
    (fuel : Nat) (sh : video_stream_data_shard) (b : Nat) (bs : List Nat) :
    SendData_loop P V cnx ti eof (fuel + 1) sh (b :: bs)
      = (SendData_loop P V cnx ti eof fuel (next_template (carve P V ti eof sh (b :: bs)))
          ((b :: bs).drop (carve_len P V sh (b :: bs)))).map
          (fun r => (r.1, carve P V ti eof sh (b :: bs) :: r.2)) := by
  have hc : carve P V ti eof sh (b :: bs) =
      { (if min (b :: bs).length (size_sub P (if sh.view_info.isSome then V else 0))
            = (b :: bs).length then
          (if eof then
            { sh with flags := sh.flags ||| end_of_slice ||| end_of_frame
                      timing_info := some ti }
          else { sh with flags := sh.flags ||| end_of_slice })
        else sh) with
        payload := (b :: bs).take
          (min (b :: bs).length (size_sub P (if sh.view_info.isSome then V else 0))) } := rfl
  rw [SendData_loop]
  simp only [carve_len]
  rw [hc]
  by_cases h1 : min (b :: bs).length (size_sub P (if sh.view_info.isSome then V else 0))
      = (b :: bs).length <;> cases eof <;> simp only [h1, if_true, if_false] <;>
    (split <;> simp_all [next_template])

theorem carve_payload (P V : Nat) (ti : timing_info_t) (eof : Bool)
    (sh : video_stream_data_shard) (rest : List Nat) :
    (carve P V ti eof sh rest).payload = rest.take (carve_len P V sh rest) := rfl

theorem carve_shard_idx (P V : Nat) (ti : timing_info_t) (eof : Bool)
    (sh : video_stream_data_shard) (rest : List Nat) :
    (carve P V ti eof sh rest).shard_idx = sh.shard_idx := by
  unfold carve
  split <;> [split; skip] <;> rfl

theorem carve_view_info (P V : Nat) (ti : timing_info_t) (eof : Bool)
    (sh : video_stream_data_shard) (rest : List Nat) :
    (carve P V ti eof sh rest).view_info = sh.view_info := by
  unfold carve
  split <;> [split; skip] <;> rfl

theorem carve_flags (P V : Nat) (ti : timing_info_t) (eof : Bool)
    (sh : video_stream_data_shard) (rest : List Nat) :
    (carve P V ti eof sh rest).flags =
      if carve_len P V sh rest = rest.length then
        (if eof then sh.flags ||| end_of_slice ||| end_of_frame else sh.flags ||| end_of_slice)
      else sh.flags := by
  unfold carve
  split <;> [split; skip] <;> rfl

theorem carve_timing_info (P V : Nat) (ti : timing_info_t) (eof : Bool)
    (sh : video_stream_data_shard) (rest : List Nat) :
    (carve P V ti eof sh rest).timing_info =
      if carve_len P V sh rest = rest.length ∧ eof = true then some ti else sh.timing_info := by
  unfold carve
  split <;> [split; skip] <;> simp_all

theorem carve_len_le (P V : Nat) (sh : video_stream_data_shard) (rest : List Nat) :
    carve_len P V sh rest ≤ rest.length := Nat.min_le_left _ _

/-- Without view metadata on the template the loop carves `min (remaining) max_payload_size`
bytes. -/
theorem carve_len_of_no_view_info (P V : Nat) (sh : video_stream_data_shard) (rest : List Nat)
    (h : sh.view_info = none) : carve_len P V sh rest = min rest.length P := by
  simp [carve_len, h, size_sub]

/-- The loop carves at least one byte when the payload limit is positive and larger than the
size of the view metadata, or when the template has no view metadata. -/
theorem carve_len_pos (P V : Nat) (sh : video_stream_data_shard) (rest : List Nat)
    (hP : 0 < P) (hrest : rest ≠ []) (h : V < P ∨ sh.view_info = none) :
    0 < carve_len P V sh rest := by
  have hl : 0 < rest.length := List.length_pos.mpr hrest
  unfold carve_len size_sub
  rcases h with h | h
  · split <;> split <;> omega
  · simp [h]
    omega

/-- Enough fuel: with a positive payload limit the loop ends within one iteration per remaining
byte, plus one for a first shard that view metadata may fill entirely. -/
theorem SendData_loop_terminates (P V : Nat) (cnx : wivrn_session) (ti : timing_info_t)
    (eof : Bool) (hP : 0 < P) (fuel : Nat) :
    ∀ (sh : video_stream_data_shard) (rest : List Nat),
      rest.length + (if sh.view_info.isSome then 1 else 0) ≤ fuel →
      (SendData_loop P V cnx ti eof fuel sh rest).isSome = true := by
  induction fuel with
  | zero =>
    intro sh rest h
    have : rest = [] := List.length_eq_zero.mp (by omega)
    subst this
    rfl
  | succ fuel ih =>
    intro sh rest h
    cases rest with
    | nil => rfl
    | cons b bs =>
      rw [SendData_loop_succ, Option.isSome_map']
      apply ih
      have hv : (next_template (carve P V ti eof sh (b :: bs))).view_info = none := rfl
      simp only [hv, Option.isSome_none, Bool.false_eq_true, if_false, Nat.add_zero,
        List.length_drop]
      by_cases hvi : sh.view_info = none
      · have hpos := carve_len_pos P V sh (b :: bs) hP (by simp) (Or.inr hvi)
        have hle := carve_len_le P V sh (b :: bs)
        omega
      · have hsome : sh.view_info.isSome = true := Option.isSome_iff_ne_none.mpr hvi
        simp only [hsome, if_true] at h
        omega

/-- The payloads of the shards emitted by the loop, concatenated, are the bytes it was given. -/
theorem SendData_loop_payloads (P V : Nat) (cnx : wivrn_session) (ti : timing_info_t)
    (eof : Bool) (fuel : Nat) :
    ∀ (sh t : video_stream_data_shard) (rest : List Nat) (out : List video_stream_data_shard),
      SendData_loop P V cnx ti eof fuel sh rest = some (t, out) →
      (out.map (fun x => x.payload)).flatten = rest := by
  induction fuel with
  | zero =>
    intro sh t rest out h
    cases rest with
    | nil =>
      rw [SendData_loop_nil] at h
      simp only [Option.some.injEq, Prod.mk.injEq] at h
      rw [← h.2]
      rfl
    | cons b bs => simp [SendData_loop] at h
  | succ fuel ih =>
    intro sh t rest out h
    cases rest with
    | nil =>
      rw [SendData_loop_nil] at h
      simp only [Option.some.injEq, Prod.mk.injEq] at h
      rw [← h.2]
      rfl
    | cons b bs =>
      rw [SendData_loop_succ] at h
      cases hr : SendData_loop P V cnx ti eof fuel (next_template (carve P V ti eof sh (b :: bs)))
          ((b :: bs).drop (carve_len P V sh (b :: bs))) with
      | none => simp [hr] at h
      | some r =>
        obtain ⟨t1, out1⟩ := r
        rw [hr] at h
        simp only [Option.map_some', Option.some.injEq, Prod.mk.injEq] at h
        rw [← h.2, List.map_cons, List.flatten_cons, ih _ _ _ _ hr, carve_payload,
          List.take_append_drop]

/-- A run of the loop that ends either had nothing to carve, or carved one shard and went on
with the next template on the bytes left. -/
theorem SendData_loop_inv (P V : Nat) (cnx : wivrn_session) (ti : timing_info_t) (eof : Bool)
    (fuel : Nat) (sh t : video_stream_data_shard) (rest : List Nat)
    (out : List video_stream_data_shard)
    (h : SendData_loop P V cnx ti eof fuel sh rest = some (t, out)) :
    (rest = [] ∧ t = sh ∧ out = []) ∨
      ∃ fuel1 out1, fuel = fuel1 + 1 ∧ rest ≠ [] ∧ out = carve P V ti eof sh rest :: out1 ∧
        SendData_loop P V cnx ti eof fuel1 (next_template (carve P V ti eof sh rest))
          (rest.drop (carve_len P V sh rest)) = some (t, out1) := by
  cases rest with
  | nil =>
    rw [SendData_loop_nil] at h
    simp only [Option.some.injEq, Prod.mk.injEq] at h
    exact Or.inl ⟨rfl, h.1.symm, h.2.symm⟩
  | cons b bs =>
    cases fuel with
    | zero => simp [SendData_loop] at h
    | succ fuel1 =>
      rw [SendData_loop_succ] at h
      cases hr : SendData_loop P V cnx ti eof fuel1
          (next_template (carve P V ti eof sh (b :: bs)))
          ((b :: bs).drop (carve_len P V sh (b :: bs))) with
      | none => simp [hr] at h
      | some r =>
        obtain ⟨t1, out1⟩ := r
        rw [hr] at h
        simp only [Option.map_some', Option.some.injEq, Prod.mk.injEq] at h
        refine Or.inr ⟨fuel1, out1, rfl, by simp, h.2.symm, ?_⟩
        rw [← h.1]
        exact hr

/-- The shard indices emitted by the loop count up by one from the index of the template, and
the template ends at the next free index. -/
theorem SendData_loop_shard_idx (P V : Nat) (cnx : wivrn_session) (ti : timing_info_t)
    (eof : Bool) (fuel : Nat) :
    ∀ (sh t : video_stream_data_shard) (rest : List Nat) (out : List video_stream_data_shard),
      SendData_loop P V cnx ti eof fuel sh rest = some (t, out) →
      out.map (fun x => x.shard_idx) = List.range' sh.shard_idx out.length ∧
        t.shard_idx = sh.shard_idx + out.length := by
  induction fuel with
  | zero =>
    intro sh t rest out h
    rcases SendData_loop_inv P V cnx ti eof 0 sh t rest out h with ⟨-, ht, ho⟩ | ⟨f1, _, hf, _⟩
    · subst ht ho
      exact ⟨rfl, rfl⟩
    · omega
  | succ fuel ih =>
    intro sh t rest out h
    rcases SendData_loop_inv P V cnx ti eof _ sh t rest out h with
      ⟨-, ht, ho⟩ | ⟨f1, out1, hf, -, ho, hr⟩
    · subst ht ho
      exact ⟨rfl, rfl⟩
    · obtain rfl : f1 = fuel := by omega
      obtain ⟨h1, h2⟩ := ih _ _ _ _ hr
      have hidx : (next_template (carve P V ti eof sh rest)).shard_idx = sh.shard_idx + 1 := by
        show (carve P V ti eof sh rest).shard_idx + 1 = _
        rw [carve_shard_idx]
      rw [hidx] at h1 h2
      subst ho
      refine ⟨?_, ?_⟩
      · rw [List.map_cons, h1, carve_shard_idx, List.length_cons, List.range'_succ]
      · rw [h2, List.length_cons]
        omega

/-- Number of shards emitted by the loop when the template has no view metadata:
`ceil (S / P)` for `S` bytes and payload limit `P`. -/
theorem SendData_loop_count (P V : Nat) (cnx : wivrn_session) (ti : timing_info_t)
    (eof : Bool) (hP : 0 < P) (fuel : Nat) :
    ∀ (sh t : video_stream_data_shard) (rest : List Nat) (out : List video_stream_data_shard),
      sh.view_info = none →
      SendData_loop P V cnx ti eof fuel sh rest = some (t, out) →
      out.length = (rest.length + P - 1) / P := by
  induction fuel with
  | zero =>
    intro sh t rest out _ h
    rcases SendData_loop_inv P V cnx ti eof 0 sh t rest out h with ⟨hr, -, ho⟩ | ⟨f1, _, hf, _⟩
    · subst hr ho
      simp only [List.length_nil, Nat.zero_add]
      exact (Nat.div_eq_of_lt (by omega)).symm
    · omega
  | succ fuel ih =>
    intro sh t rest out hv h
    rcases SendData_loop_inv P V cnx ti eof _ sh t rest out h with
      ⟨hr, -, ho⟩ | ⟨f1, out1, hf, hne, ho, hr⟩
    · subst hr ho
      simp only [List.length_nil, Nat.zero_add]
      exact (Nat.div_eq_of_lt (by omega)).symm
    · obtain rfl : f1 = fuel := by omega
      have h1 := ih _ _ _ _ (show (next_template (carve P V ti eof sh rest)).view_info = none
        from rfl) hr
      have hl : 0 < rest.length := List.length_pos.mpr hne
      subst ho
      rw [List.length_cons, h1, List.length_drop, carve_len_of_no_view_info P V sh rest hv]
      rcases Nat.le_total rest.length P with hle | hge
      · rw [Nat.min_eq_left hle, Nat.sub_self, Nat.zero_add, Nat.div_eq_of_lt (by omega)]
        have : rest.length + P - 1 = (rest.length - 1) + P := by omega
        rw [this, Nat.add_div_right _ hP, Nat.div_eq_of_lt (by omega)]
      · rw [Nat.min_eq_right hge]
        have : rest.length + P - 1 = (rest.length - P + P - 1) + P := by omega
        rw [this, Nat.add_div_right _ hP]

/-- Every payload emitted by the loop is non-empty when the payload limit is positive and either
exceeds the size of the view metadata or the template has no view metadata. -/
theorem SendData_loop_payload_ne_nil (P V : Nat) (cnx : wivrn_session) (ti : timing_info_t)
    (eof : Bool) (hP : 0 < P) (fuel : Nat) :
    ∀ (sh t : video_stream_data_shard) (rest : List Nat) (out : List video_stream_data_shard),
      V < P ∨ sh.view_info = none →
      SendData_loop P V cnx ti eof fuel sh rest = some (t, out) →
      ∀ x ∈ out, x.payload ≠ [] := by
  induction fuel with
  | zero =>
    intro sh t rest out _ h
    rcases SendData_loop_inv P V cnx ti eof 0 sh t rest out h with ⟨-, -, ho⟩ | ⟨f1, _, hf, _⟩
    · subst ho
      simp
    · omega
  | succ fuel ih =>
    intro sh t rest out hv h
    rcases SendData_loop_inv P V cnx ti eof _ sh t rest out h with
      ⟨-, -, ho⟩ | ⟨f1, out1, hf, hne, ho, hr⟩
    · subst ho
      simp
    · obtain rfl : f1 = fuel := by omega
      have h1 := ih _ _ _ _ (Or.inr (show (next_template (carve P V ti eof sh rest)).view_info
        = none from rfl)) hr
      subst ho
      intro x hx
      rcases List.mem_cons.mp hx with hx | hx
      · subst hx
        rw [carve_payload]
        have hpos := carve_len_pos P V sh rest hP hne hv
        have hl : 0 < rest.length := List.length_pos.mpr hne
        intro hnil
        have := congrArg List.length hnil
        simp only [List.length_take, List.length_nil] at this
        omega
      · exact h1 x hx

/-- Bit facts for the two values the template's flags take (`0` and `start_of_slice`). -/
theorem flag_bits (f : Nat) (hf : f ≤ 1) :
    ((f &&& end_of_slice != 0) = false ∧ (f &&& end_of_frame != 0) = false) ∧
      (((f ||| end_of_slice) &&& end_of_slice != 0) = true ∧
        ((f ||| end_of_slice) &&& end_of_frame != 0) = false ∧
        ((f ||| end_of_slice) &&& start_of_slice != 0) = (f &&& start_of_slice != 0)) ∧
      (((f ||| end_of_slice ||| end_of_frame) &&& end_of_slice != 0) = true ∧
        ((f ||| end_of_slice ||| end_of_frame) &&& end_of_frame != 0) = true ∧
        ((f ||| end_of_slice ||| end_of_frame) &&& start_of_slice != 0)
          = (f &&& start_of_slice != 0)) := by
  interval_cases f <;> decide

/-- The shard template after the loop: the timing record is attached by a call with
`end_of_frame` that carved something, and is otherwise left as it was. -/
theorem SendData_loop_template (P V : Nat) (cnx : wivrn_session) (ti : timing_info_t)
    (eof : Bool) (fuel : Nat) :
    ∀ (sh t : video_stream_data_shard) (rest : List Nat) (out : List video_stream_data_shard),
      SendData_loop P V cnx ti eof fuel sh rest = some (t, out) →
      t.timing_info = (if eof = true ∧ rest ≠ [] then some ti else sh.timing_info) := by
  induction fuel with
  | zero =>
    intro sh t rest out h
    rcases SendData_loop_inv P V cnx ti eof 0 sh t rest out h with ⟨hr, ht, -⟩ | ⟨f1, _, hf, _⟩
    · subst hr ht
      simp
    · omega
  | succ fuel ih =>
    intro sh t rest out h
    rcases SendData_loop_inv P V cnx ti eof _ sh t rest out h with
      ⟨hr, ht, -⟩ | ⟨f1, out1, hf, hne, -, hr⟩
    · subst hr ht
      simp
    · obtain rfl : f1 = fuel := by omega
      rw [ih _ _ _ _ hr]
      have hnt : (next_template (carve P V ti eof sh rest)).timing_info
          = (carve P V ti eof sh rest).timing_info := rfl
      rw [hnt, carve_timing_info]
      by_cases hlen : carve_len P V sh rest = rest.length
      · have hd : rest.drop (carve_len P V sh rest) = [] := by
          rw [hlen]
          exact List.drop_length rest
        cases eof <;> simp [hlen, hd, hne]
      · have hd : rest.drop (carve_len P V sh rest) ≠ [] := by
          intro hnil
          have := congrArg List.length hnil
          simp only [List.length_drop, List.length_nil] at this
          have := carve_len_le P V sh rest
          omega
        cases eof <;> simp [hlen, hd, hne]

/-- The last shard carved by the loop carries `end_of_slice`, and `end_of_frame` with the
timing record exactly when `end_of_frame` was asked; the shards before it carry neither flag
and the timing info of the template. -/
theorem SendData_loop_last (P V : Nat) (cnx : wivrn_session) (ti : timing_info_t)
    (eof : Bool) (fuel : Nat) :
    ∀ (sh t : video_stream_data_shard) (rest : List Nat) (out : List video_stream_data_shard),
      sh.flags ≤ 1 → rest ≠ [] →
      SendData_loop P V cnx ti eof fuel sh rest = some (t, out) →
      ∃ init last, out = init ++ [last] ∧
        last.has_flag end_of_slice = true ∧ last.has_flag end_of_frame = eof ∧
        last.timing_info = (if eof = true then some ti else sh.timing_info) ∧
        ∀ x ∈ init, x.has_flag end_of_slice = false ∧ x.has_flag end_of_frame = false ∧
          x.timing_info = sh.timing_info := by
  induction fuel with
  | zero =>
    intro sh t rest out _ hne h
    rcases SendData_loop_inv P V cnx ti eof 0 sh t rest out h with ⟨hr, -, -⟩ | ⟨f1, _, hf, _⟩
    · exact absurd hr hne
    · omega
  | succ fuel ih =>
    intro sh t rest out hfl hne h
    rcases SendData_loop_inv P V cnx ti eof _ sh t rest out h with
      ⟨hr, -, -⟩ | ⟨f1, out1, hf, -, ho, hr⟩
    · exact absurd hr hne
    · obtain rfl : f1 = fuel := by omega
      obtain ⟨hb0, hb1, hb2⟩ := flag_bits sh.flags hfl
      by_cases hlen : carve_len P V sh rest = rest.length
      · have hd : rest.drop (carve_len P V sh rest) = [] := by
          rw [hlen]
          exact List.drop_length rest
        rw [hd, SendData_loop_nil] at hr
        simp only [Option.some.injEq, Prod.mk.injEq] at hr
        refine ⟨[], carve P V ti eof sh rest, by rw [ho, ← hr.2]; rfl, ?_, ?_, ?_, by simp⟩
        · unfold video_stream_data_shard.has_flag
          rw [carve_flags, if_pos hlen]
          cases eof
          · exact hb1.1
          · exact hb2.1
        · unfold video_stream_data_shard.has_flag
          rw [carve_flags, if_pos hlen]
          cases eof
          · exact hb1.2.1
          · exact hb2.2.1
        · rw [carve_timing_info]
          cases eof <;> simp [hlen]
      · have hd : rest.drop (carve_len P V sh rest) ≠ [] := by
          intro hnil
          have := congrArg List.length hnil
          simp only [List.length_drop, List.length_nil] at this
          have := carve_len_le P V sh rest
          omega
        have hct : (carve P V ti eof sh rest).timing_info = sh.timing_info := by
          rw [carve_timing_info]
          simp [hlen]
        have hcf : (carve P V ti eof sh rest).flags = sh.flags := by
          rw [carve_flags, if_neg hlen]
        obtain ⟨init1, last1, ho1, hl1, hl2, hl3, hl4⟩ :=
          ih (next_template (carve P V ti eof sh rest)) t _ out1 (Nat.zero_le 1) hd hr
        have hnt : (next_template (carve P V ti eof sh rest)).timing_info = sh.timing_info :=
          hct
        rw [hnt] at hl3 hl4
        refine ⟨carve P V ti eof sh rest :: init1, last1, by rw [ho, ho1]; rfl, hl1, hl2, hl3,
          ?_⟩
        intro x hx
        rcases List.mem_cons.mp hx with hx | hx
        · subst hx
          unfold video_stream_data_shard.has_flag
          rw [hcf]
          exact ⟨hb0.1, hb0.2, hct⟩
        · exact hl4 x hx

/-- Shards carved from a template without flags and without view metadata carry neither
`start_of_slice` nor view metadata. -/
theorem SendData_loop_no_start (P V : Nat) (cnx : wivrn_session) (ti : timing_info_t)
    (eof : Bool) (fuel : Nat) :
    ∀ (sh t : video_stream_data_shard) (rest : List Nat) (out : List video_stream_data_shard),
      sh.flags = 0 → sh.view_info = none →
      SendData_loop P V cnx ti eof fuel sh rest = some (t, out) →
      ∀ x ∈ out, x.has_flag start_of_slice = false ∧ x.view_info = none := by
  induction fuel with
  | zero =>
    intro sh t rest out _ _ h
    rcases SendData_loop_inv P V cnx ti eof 0 sh t rest out h with ⟨-, -, ho⟩ | ⟨f1, _, hf, _⟩
    · subst ho
      simp
    · omega
  | succ fuel ih =>
    intro sh t rest out hfl hv h
    rcases SendData_loop_inv P V cnx ti eof _ sh t rest out h with
      ⟨-, -, ho⟩ | ⟨f1, out1, hf, -, ho, hr⟩
    · subst ho
      simp
    · obtain rfl : f1 = fuel := by omega
      have h1 := ih _ _ _ _ rfl rfl hr
      subst ho
      intro x hx
      rcases List.mem_cons.mp hx with hx | hx
      · subst hx
        refine ⟨?_, by rw [carve_view_info, hv]⟩
        unfold video_stream_data_shard.has_flag
        rw [carve_flags, hfl]
        split <;> [split; skip] <;> decide
      · exact h1 x hx

/-- The first shard carved by the loop has the index and the view metadata of the template and
carries `start_of_slice` exactly when the template does; no later shard carries
`start_of_slice` or view metadata. -/
theorem SendData_loop_first (P V : Nat) (cnx : wivrn_session) (ti : timing_info_t)
    (eof : Bool) (fuel : Nat) (sh t : video_stream_data_shard) (rest : List Nat)
    (out : List video_stream_data_shard) (hfl : sh.flags ≤ 1) (hne : rest ≠ [])
    (h : SendData_loop P V cnx ti eof fuel sh rest = some (t, out)) :
    ∃ first tail, out = first :: tail ∧
      first.has_flag start_of_slice = sh.has_flag start_of_slice ∧
      first.shard_idx = sh.shard_idx ∧ first.view_info = sh.view_info ∧
      ∀ x ∈ tail, x.has_flag start_of_slice = false ∧ x.view_info = none := by
  rcases SendData_loop_inv P V cnx ti eof _ sh t rest out h with
    ⟨hr, -, -⟩ | ⟨f1, out1, -, -, ho, hr⟩
  · exact absurd hr hne
  · obtain ⟨-, hb1, hb2⟩ := flag_bits sh.flags hfl
    refine ⟨carve P V ti eof sh rest, out1, ho, ?_, carve_shard_idx .., carve_view_info ..,
      SendData_loop_no_start P V cnx ti eof f1 _ t _ out1 rfl rfl hr⟩
    unfold video_stream_data_shard.has_flag
    rw [carve_flags]
    split
    · cases eof
      · exact hb1.2.2
      · exact hb2.2.2
    · rfl

/-- A template without view metadata stays without view metadata over the loop. -/
theorem SendData_loop_view_info (P V : Nat) (cnx : wivrn_session) (ti : timing_info_t)
    (eof : Bool) (fuel : Nat) :
    ∀ (sh t : video_stream_data_shard) (rest : List Nat) (out : List video_stream_data_shard),
      sh.view_info = none →
      SendData_loop P V cnx ti eof fuel sh rest = some (t, out) → t.view_info = none := by
  induction fuel with
  | zero =>
    intro sh t rest out hv h
    rcases SendData_loop_inv P V cnx ti eof 0 sh t rest out h with ⟨-, ht, -⟩ | ⟨f1, _, hf, _⟩
    · rw [ht, hv]
    · omega
  | succ fuel ih =>
    intro sh t rest out hv h
    rcases SendData_loop_inv P V cnx ti eof _ sh t rest out h with
      ⟨-, ht, -⟩ | ⟨f1, out1, hf, -, -, hr⟩
    · rw [ht, hv]
    · obtain rfl : f1 = fuel := by omega
      exact ih _ _ _ _ rfl hr

/-! ## SendData -/

/-- `SendData` is its loop run from `before_loop`. -/
theorem SendData_eq (P V : Nat) (s : VideoEncoder) (data : List Nat) (eof : Bool)
    (now_end now_begin : Int) :
    s.SendData P V data eof now_end now_begin
      = (SendData_loop P V (before_loop s data eof now_end now_begin).cnx
          (before_loop s data eof now_end now_begin).timing_info eof (data.length + 1)
          (before_loop s data eof now_end now_begin).shard data).map
        (fun r => ({ before_loop s data eof now_end now_begin with shard := r.1 }, r.2)) := by
  unfold VideoEncoder.SendData before_loop
  simp only
  split <;> simp_all

/-- The template with which the loop of `SendData` starts. -/
theorem before_loop_shard (s : VideoEncoder) (data : List Nat) (eof : Bool)
    (now_end now_begin : Int) :
    (before_loop s data eof now_end now_begin).shard
      = { s.shard with flags := start_of_slice } := by
  unfold before_loop
  simp only
  cases eof <;> simp only [if_true, if_false, Bool.false_eq_true] <;>
    repeat' split
  all_goals rfl

/-- With a positive payload limit `SendData` returns: its loop ends within the `data.length + 1`
iterations it is given. -/
theorem SendData_returns (P V : Nat) (s : VideoEncoder) (data : List Nat) (eof : Bool)
    (now_end now_begin : Int) (hP : 0 < P) :
    ∃ t out,
      SendData_loop P V (before_loop s data eof now_end now_begin).cnx
          (before_loop s data eof now_end now_begin).timing_info eof (data.length + 1)
          { s.shard with flags := start_of_slice } data = some (t, out) ∧
        s.SendData P V data eof now_end now_begin
          = some ({ before_loop s data eof now_end now_begin with shard := t }, out) := by
  have hterm := SendData_loop_terminates P V (before_loop s data eof now_end now_begin).cnx
    (before_loop s data eof now_end now_begin).timing_info eof hP (data.length + 1)
    { s.shard with flags := start_of_slice } data (by split <;> omega)
  obtain ⟨r, hr⟩ := Option.isSome_iff_exists.mp hterm
  refine ⟨r.1, r.2, hr, ?_⟩
  rw [SendData_eq, before_loop_shard, hr]
  rfl

/-- Shard count of one `SendData` call on a template without view metadata. -/
theorem SendData_count (P V : Nat) (s : VideoEncoder) (data : List Nat) (eof : Bool)
    (now_end now_begin : Int) (hP : 0 < P) (hview : s.shard.view_info = none) :
    ∃ s1 out, s.SendData P V data eof now_end now_begin = some (s1, out) ∧
      out.length = (data.length + P - 1) / P ∧ (data = [] → out = []) := by
  obtain ⟨t, out, hloop, hsend⟩ := SendData_returns P V s data eof now_end now_begin hP
  have hcount := SendData_loop_count P V _ _ eof hP _ { s.shard with flags := start_of_slice }
    t data out hview hloop
  refine ⟨_, out, hsend, hcount, ?_⟩
  intro hd
  subst hd
  rw [SendData_loop_nil] at hloop
  simp only [Option.some.injEq, Prod.mk.injEq] at hloop
  exact hloop.2.symm

/-- C5. With payload limit `P > 0` and a shard template without view metadata, one `SendData`
call on `S` bytes returns and hands exactly `ceil (S / P)` shards to the transport; none when
`S = 0`. -/
theorem C5_shard_count (P V : Nat) (s : VideoEncoder) (data : List Nat) (eof : Bool)
    (now_end now_begin : Int) (hP : 0 < P) (hview : s.shard.view_info = none) :
    ∃ s1 out, s.SendData P V data eof now_end now_begin = some (s1, out) ∧
      out.length = (data.length + P - 1) / P ∧ (data = [] → out = []) :=
  SendData_count P V s data eof now_end now_begin hP hview

/-- C10. For every byte range given to `SendData`, with or without view metadata on the
template and whatever the transport does with each shard, the call returns (payload limit
positive) and the payloads of the shards handed to the transport, concatenated in emission
order, are exactly the input bytes; every payload is non-empty when the payload limit exceeds
the size of the view metadata. -/
theorem C10_payloads_partition_input (P V : Nat) (s : VideoEncoder) (data : List Nat)
    (eof : Bool) (now_end now_begin : Int) (hP : 0 < P) :
    ∃ s1 out, s.SendData P V data eof now_end now_begin = some (s1, out) ∧
      (out.map (fun x => x.payload)).flatten = data ∧
      (V < P → ∀ x ∈ out, x.payload ≠ []) := by
  obtain ⟨t, out, hloop, hsend⟩ := SendData_returns P V s data eof now_end now_begin hP
  exact ⟨_, out, hsend, SendData_loop_payloads P V _ _ eof _ _ t data out hloop,
    fun hV => SendData_loop_payload_ne_nil P V _ _ eof hP _ _ t data out (Or.inl hV) hloop⟩
/-- C5 on seven bytes with payload limit 3: three shards. -/
theorem C5_shard_count_witness :
    (0 < 3 ∧ plain_stream.shard.view_info = none) ∧
      ∃ s1 out, plain_stream.SendData 3 1 [1, 2, 3, 4, 5, 6, 7] true 30 40 = some (s1, out) ∧
        out.length = (7 + 3 - 1) / 3 ∧ (([1, 2, 3, 4, 5, 6, 7] : List Nat) = [] → out = []) :=
  ⟨⟨by decide, by decide⟩,
    C5_shard_count 3 1 plain_stream [1, 2, 3, 4, 5, 6, 7] true 30 40 (by decide) (by decide)⟩

/-- C10 on eight bytes with payload limit 4, view metadata of size 1 and a failing transport. -/
theorem C10_payloads_partition_input_witness :
    0 < 4 ∧
      ∃ s1 out, encoded_stream.SendData 4 1 [1, 2, 3, 4, 5, 6, 7, 8] true 30 40
          = some (s1, out) ∧
        (out.map (fun x => x.payload)).flatten = [1, 2, 3, 4, 5, 6, 7, 8] ∧
        (1 < 4 → ∀ x ∈ out, x.payload ≠ []) :=
  ⟨by decide,
    C10_payloads_partition_input 4 1 encoded_stream [1, 2, 3, 4, 5, 6, 7, 8] true 30 40
      (by decide)⟩

/-- A `SendData` call that returns ran its loop from the template with `start_of_slice` set. -/
theorem SendData_inv (P V : Nat) (s s1 : VideoEncoder) (data : List Nat) (eof : Bool)
    (now_end now_begin : Int) (out : List video_stream_data_shard)
    (h : s.SendData P V data eof now_end now_begin = some (s1, out)) :
    ∃ t,
      SendData_loop P V (before_loop s data eof now_end now_begin).cnx
          (before_loop s data eof now_end now_begin).timing_info eof (data.length + 1)
          { s.shard with flags := start_of_slice } data = some (t, out) ∧
        s1 = { before_loop s data eof now_end now_begin with shard := t } := by
  rw [SendData_eq, before_loop_shard] at h
  cases hr : SendData_loop P V (before_loop s data eof now_end now_begin).cnx
      (before_loop s data eof now_end now_begin).timing_info eof (data.length + 1)
      { s.shard with flags := start_of_slice } data with
  | none => simp [hr] at h
  | some r =>
    rw [hr] at h
    simp only [Option.map_some', Option.some.injEq, Prod.mk.injEq] at h
    refine ⟨r.1, ?_, h.1.symm⟩
    rw [← h.2]

/-- Over one `SendData` call the shard indices continue from the template's index, and the
template's timing info changes only when a non-empty range is sent with `end_of_frame`. -/
theorem SendData_template (P V : Nat) (s s1 : VideoEncoder) (data : List Nat) (eof : Bool)
    (now_end now_begin : Int) (out : List video_stream_data_shard)
    (h : s.SendData P V data eof now_end now_begin = some (s1, out)) :
    out.map (fun x => x.shard_idx) = List.range' s.shard.shard_idx out.length ∧
      s1.shard.shard_idx = s.shard.shard_idx + out.length ∧
      s1.shard.timing_info
        = (if eof = true ∧ data ≠ [] then some s1.timing_info else s.shard.timing_info) ∧
      (s.shard.view_info = none → s1.shard.view_info = none) := by
  obtain ⟨t, hloop, hs1⟩ := SendData_inv P V s s1 data eof now_end now_begin out h
  obtain ⟨hi1, hi2⟩ := SendData_loop_shard_idx P V _ _ eof _ _ t data out hloop
  have ht := SendData_loop_template P V _ _ eof _ _ t data out hloop
  subst hs1
  exact ⟨hi1, hi2, ht,
    fun hv => SendData_loop_view_info P V _ _ eof _ { s.shard with flags := start_of_slice }
      t data out hv hloop⟩

/-- A sequence of `SendData` calls returns when the payload limit is positive. -/
theorem SendData_calls_returns (P V : Nat) (hP : 0 < P) (cs : List SendDataCall) :
    ∀ s : VideoEncoder, ∃ s1 out, SendData_calls P V s cs = some (s1, out) := by
  induction cs with
  | nil => intro s; exact ⟨s, [], rfl⟩
  | cons c cs ih =>
    intro s
    obtain ⟨t, out1, -, h1⟩ := SendData_returns P V s c.data c.eof c.now_end c.now_begin hP
    obtain ⟨s2, out2, h2⟩ := ih { before_loop s c.data c.eof c.now_end c.now_begin with shard := t }
    exact ⟨s2, out1 ++ out2, by simp only [SendData_calls, h1, h2]⟩

/-- A sequence of `SendData` calls that returns splits into its first call and the rest. -/
theorem SendData_calls_cons_inv (P V : Nat) (s s2 : VideoEncoder) (c : SendDataCall)
    (cs : List SendDataCall) (out : List video_stream_data_shard)
    (h : SendData_calls P V s (c :: cs) = some (s2, out)) :
    ∃ s1 out1 out2, s.SendData P V c.data c.eof c.now_end c.now_begin = some (s1, out1) ∧
      SendData_calls P V s1 cs = some (s2, out2) ∧ out = out1 ++ out2 := by
  simp only [SendData_calls] at h
  cases h1 : s.SendData P V c.data c.eof c.now_end c.now_begin with
  | none => simp [h1] at h
  | some r1 =>
    obtain ⟨s1, out1⟩ := r1
    rw [h1] at h
    simp only at h
    cases h2 : SendData_calls P V s1 cs with
    | none => simp [h2] at h
    | some r2 =>
      obtain ⟨s3, out2⟩ := r2
      rw [h2] at h
      simp only [Option.some.injEq, Prod.mk.injEq] at h
      exact ⟨s1, out1, out2, rfl, by rw [← h.1]; exact h2, h.2.symm⟩

/-- Over a sequence of `SendData` calls the shard indices count up by one from the template's
index, across the calls. -/
theorem SendData_calls_shard_idx (P V : Nat) (cs : List SendDataCall) :
    ∀ (s s2 : VideoEncoder) (out : List video_stream_data_shard),
      SendData_calls P V s cs = some (s2, out) →
      out.map (fun x => x.shard_idx) = List.range' s.shard.shard_idx out.length ∧
        s2.shard.shard_idx = s.shard.shard_idx + out.length := by
  induction cs with
  | nil =>
    intro s s2 out h
    simp only [SendData_calls, Option.some.injEq, Prod.mk.injEq] at h
    rw [← h.1, ← h.2]
    exact ⟨rfl, rfl⟩
  | cons c cs ih =>
    intro s s2 out h
    obtain ⟨s1, out1, out2, h1, h2, ho⟩ := SendData_calls_cons_inv P V s s2 c cs out h
    obtain ⟨ha, hb, -, -⟩ := SendData_template P V s s1 c.data c.eof c.now_end c.now_begin out1 h1
    obtain ⟨hc, hd⟩ := ih s1 s2 out2 h2
    subst ho
    rw [hb] at hc hd
    refine ⟨?_, by rw [hd, List.length_append]; omega⟩
    rw [List.map_append, ha, hc, List.length_append, Nat.add_comm out1.length out2.length,
      ← List.range'_append_1]

/-- Calls without `end_of_frame` leave the template's timing info as it was. -/
theorem SendData_calls_timing_info (P V : Nat) (cs : List SendDataCall) :
    ∀ (s s2 : VideoEncoder) (out : List video_stream_data_shard),
      (∀ c ∈ cs, c.eof = false) → SendData_calls P V s cs = some (s2, out) →
      s2.shard.timing_info = s.shard.timing_info := by
  induction cs with
  | nil =>
    intro s s2 out _ h
    simp only [SendData_calls, Option.some.injEq, Prod.mk.injEq] at h
    rw [← h.1]
  | cons c cs ih =>
    intro s s2 out hopen h
    obtain ⟨s1, out1, out2, h1, h2, -⟩ := SendData_calls_cons_inv P V s s2 c cs out h
    obtain ⟨-, -, ht, -⟩ := SendData_template P V s s1 c.data c.eof c.now_end c.now_begin out1 h1
    rw [ih s1 s2 out2 (fun d hd => hopen d (List.mem_cons_of_mem _ hd)) h2, ht,
      hopen c (List.mem_cons_self _ _)]
    simp

/-! ## Frames: Encode followed by SendData calls -/

/-- C6. After `Encode` reset the shard template, any sequence of `SendData` calls (payload
limit positive) returns, and the shard indices of the shards handed to the transport, in
emission order over all the calls, are `0, 1, 2, ...` without gap, repeat or reset. Example:
with `P = 1000` and a template at index 0 without view metadata, a call on 3000 bytes
(`end_of_frame` false) emits indices 0, 1, 2 and a following call on 500 bytes (`end_of_frame`
true) emits the single index 3, flagged `end_of_frame`: four shards in total. -/
theorem C6_shard_indices_consecutive (P V : Nat) (hP : 0 < P) (s0 : VideoEncoder)
    (a : EncodeCall) (calls : List SendDataCall) :
    (∃ s1 out, SendData_calls P V (s0.EncodeWith a).state calls = some (s1, out) ∧
        out.map (fun x => x.shard_idx) = List.range out.length) ∧
      (∀ (s : VideoEncoder) (d1 d2 : List Nat) (e1 b1 e2 b2 : Int),
        s.shard.shard_idx = 0 → s.shard.view_info = none →
        d1.length = 3000 → d2.length = 500 →
        ∃ s1 s2 out1 last,
          s.SendData 1000 V d1 false e1 b1 = some (s1, out1) ∧
          s1.SendData 1000 V d2 true e2 b2 = some (s2, [last]) ∧
          SendData_calls 1000 V s
              [{ data := d1, eof := false, now_end := e1, now_begin := b1 },
                { data := d2, eof := true, now_end := e2, now_begin := b2 }]
            = some (s2, out1 ++ [last]) ∧
          out1.map (fun x => x.shard_idx) = [0, 1, 2] ∧ last.shard_idx = 3 ∧
          (out1 ++ [last]).length = 4 ∧ last.has_flag end_of_frame = true) := by
  constructor
  · obtain ⟨s1, out, h⟩ := SendData_calls_returns P V hP calls (s0.EncodeWith a).state
    obtain ⟨hi, -⟩ := SendData_calls_shard_idx P V calls _ s1 out h
    have h0 : (s0.EncodeWith a).state.shard.shard_idx = 0 :=
      (Encode_shard s0 a.cnx a.view_info a.frame_index a.encode a.now_begin a.now_end).1
    rw [h0] at hi
    exact ⟨s1, out, h, by rw [hi, List.range_eq_range']⟩
  · intro s d1 d2 e1 b1 e2 b2 hidx hview hd1 hd2
    obtain ⟨s1, out1, h1, hc1, -⟩ := SendData_count 1000 V s d1 false e1 b1 (by decide) hview
    obtain ⟨hi1, hx1, -, hv1⟩ := SendData_template 1000 V s s1 d1 false e1 b1 out1 h1
    obtain ⟨s2, out2, h2, hc2, -⟩ := SendData_count 1000 V s1 d2 true e2 b2 (by decide) (hv1 hview)
    obtain ⟨hi2, -, -, -⟩ := SendData_template 1000 V s1 s2 d2 true e2 b2 out2 h2
    rw [hd1] at hc1
    rw [hd2] at hc2
    have hl1 : out1.length = 3 := hc1
    have hl2 : out2.length = 1 := hc2
    rw [hidx, hl1] at hi1 hx1
    rw [hx1, hl2] at hi2
    have hne2 : d2 ≠ [] := by
      intro h
      rw [h] at hd2
      simp at hd2
    obtain ⟨t2, hloop2, -⟩ := SendData_inv 1000 V s1 s2 d2 true e2 b2 out2 h2
    obtain ⟨init, last, ho2, -, hl, -, -⟩ :=
      SendData_loop_last 1000 V _ _ true _ { s1.shard with flags := start_of_slice } t2 d2 out2
        (Nat.le_refl 1) hne2 hloop2
    have hinit : init = [] := by
      rw [ho2, List.length_append, List.length_singleton] at hl2
      exact List.length_eq_zero.mp (by omega)
    subst hinit
    rw [List.nil_append] at ho2
    subst ho2
    refine ⟨s1, s2, out1, last, h1, h2, ?_, hi1, ?_, ?_, hl⟩
    · simp only [SendData_calls, h1, h2, List.append_nil]
    · simpa using hi2
    · rw [List.length_append, hl1]
      rfl

/-- C6 on a frame sent as a slice of five bytes and a last slice of one byte. -/
theorem C6_shard_indices_consecutive_witness :
    0 < 4 ∧
      ∃ s1 out,
        SendData_calls 4 1 (example_presented.EncodeWith example_encode).state
            [first_slice, last_slice] = some (s1, out) ∧
          out.map (fun x => x.shard_idx) = List.range out.length :=
  ⟨by decide,
    (C6_shard_indices_consecutive 4 1 (by decide) example_presented example_encode
      [first_slice, last_slice]).1⟩

/-- C7. Within a frame whose template was reset by `Encode` (the earlier `SendData` calls of
the frame, if any, were slices without `end_of_frame`), every `SendData` call on a non-empty
byte range returns; the last shard it carved carries `end_of_slice`; that shard carries
`end_of_frame` exactly when the call's `end_of_frame` argument is true, and the Timing Record
exactly then; no other shard of the call carries `end_of_slice`, `end_of_frame` or timing
info. -/
theorem C7_last_shard_flags (P V : Nat) (hP : 0 < P) (s0 : VideoEncoder) (a : EncodeCall)
    (earlier : List SendDataCall) (s : VideoEncoder)
    (earlier_out : List video_stream_data_shard)
    (hopen : ∀ c ∈ earlier, c.eof = false)
    (hs : SendData_calls P V (s0.EncodeWith a).state earlier = some (s, earlier_out))
    (data : List Nat) (hne : data ≠ []) (eof : Bool) (now_end now_begin : Int) :
    ∃ s1 init last, s.SendData P V data eof now_end now_begin = some (s1, init ++ [last]) ∧
      last.has_flag end_of_slice = true ∧
      last.has_flag end_of_frame = eof ∧
      last.timing_info = (if eof = true then some s1.timing_info else none) ∧
      ∀ x ∈ init, x.has_flag end_of_slice = false ∧ x.has_flag end_of_frame = false ∧
        x.timing_info = none := by
  have ht0 : (s0.EncodeWith a).state.shard.timing_info = none :=
    (Encode_shard s0 a.cnx a.view_info a.frame_index a.encode a.now_begin a.now_end).2.2.1
  have ht : s.shard.timing_info = none := by
    rw [SendData_calls_timing_info P V earlier _ s earlier_out hopen hs, ht0]
  obtain ⟨t, out, hloop, hsend⟩ := SendData_returns P V s data eof now_end now_begin hP
  obtain ⟨init, last, ho, h1, h2, h3, h4⟩ :=
    SendData_loop_last P V _ _ eof _ { s.shard with flags := start_of_slice } t data out
      (Nat.le_refl 1) hne hloop
  have ht2 : ({ s.shard with flags := start_of_slice } : video_stream_data_shard).timing_info
      = none := ht
  rw [ht2] at h3 h4
  subst ho
  exact ⟨_, init, last, hsend, h1, h2, h3, h4⟩

/-- C7 on the last slice of a frame whose first slice was sent before. -/
theorem C7_last_shard_flags_witness :
    (0 < 4 ∧ (∀ c ∈ [first_slice], c.eof = false) ∧ open_frame.isSome = true ∧
        ([6, 7, 8, 9, 10] : List Nat) ≠ []) ∧
      ∃ s1 init last,
        (open_frame.get (by decide)).1.SendData 4 1 [6, 7, 8, 9, 10] true 50 60
            = some (s1, init ++ [last]) ∧
          last.has_flag end_of_slice = true ∧
          last.has_flag end_of_frame = true ∧
          last.timing_info = (if true = true then some s1.timing_info else none) ∧
          ∀ x ∈ init, x.has_flag end_of_slice = false ∧ x.has_flag end_of_frame = false ∧
            x.timing_info = none :=
  ⟨⟨by decide, by decide, by decide, by decide⟩,
    C7_last_shard_flags 4 1 (by decide) example_presented example_encode [first_slice]
      (open_frame.get (by decide)).1 (open_frame.get (by decide)).2 (by decide)
      (by simp [open_frame]) [6, 7, 8, 9, 10] (by decide) true 50 60⟩

/-- C8, as the code has it. Every `SendData` call on a non-empty byte range returns, the first
shard it carved carries `start_of_slice` and no other shard of the call does. The first shard
of the first call after `Encode` reset the template has shard index 0, so a frame fragmented
by a single call carries `start_of_slice` on shard 0 only; in a frame fragmented by several
calls the first shard of each call carries it. -/
theorem C8_start_of_slice_per_call (P V : Nat) (hP : 0 < P) (s : VideoEncoder)
    (data : List Nat) (hne : data ≠ []) (eof : Bool) (now_end now_begin : Int) :
    ∃ s1 first tail, s.SendData P V data eof now_end now_begin = some (s1, first :: tail) ∧
      first.has_flag start_of_slice = true ∧
      first.shard_idx = s.shard.shard_idx ∧
      (∀ x ∈ tail, x.has_flag start_of_slice = false) ∧
      (∀ (s0 : VideoEncoder) (a : EncodeCall), s = (s0.EncodeWith a).state →
        first.shard_idx = 0 ∧
        (first :: tail).map (fun x => x.shard_idx) = List.range (first :: tail).length) := by
  obtain ⟨t, out, hloop, hsend⟩ := SendData_returns P V s data eof now_end now_begin hP
  obtain ⟨first, tail, ho, h1, h2, -, h4⟩ :=
    SendData_loop_first P V _ _ eof _ { s.shard with flags := start_of_slice } t data out
      (Nat.le_refl 1) hne hloop
  obtain ⟨hi, -⟩ := SendData_loop_shard_idx P V _ _ eof _ _ t data out hloop
  subst ho
  refine ⟨_, first, tail, hsend, ?_, h2, fun x hx => (h4 x hx).1, ?_⟩
  · rw [h1]
    show (start_of_slice &&& start_of_slice != 0) = true
    decide
  · intro s0 a hsa
    have h0 : s.shard.shard_idx = 0 := by
      rw [hsa]
      exact (Encode_shard s0 a.cnx a.view_info a.frame_index a.encode a.now_begin a.now_end).1
    have h2a : first.shard_idx = s.shard.shard_idx := h2
    refine ⟨by rw [h2a, h0], ?_⟩
    have hi2 : List.map (fun x => x.shard_idx) (first :: tail)
        = List.range' s.shard.shard_idx (first :: tail).length := hi
    rw [hi2, h0, List.range_eq_range']

/-- C8 on a frame sent by one call on five bytes. -/
theorem C8_start_of_slice_per_call_witness :
    (0 < 4 ∧ ([1, 2, 3, 4, 5] : List Nat) ≠ []) ∧
      ∃ s1 first tail,
        encoded_stream.SendData 4 1 [1, 2, 3, 4, 5] true 30 40 = some (s1, first :: tail) ∧
          first.has_flag start_of_slice = true ∧
          first.shard_idx = encoded_stream.shard.shard_idx ∧
          (∀ x ∈ tail, x.has_flag start_of_slice = false) ∧
          (∀ (s0 : VideoEncoder) (a : EncodeCall), encoded_stream = (s0.EncodeWith a).state →
            first.shard_idx = 0 ∧
            (first :: tail).map (fun x => x.shard_idx)
              = List.range (first :: tail).length) :=
  ⟨⟨by decide, by decide⟩,
    C8_start_of_slice_per_call 4 1 (by decide) encoded_stream [1, 2, 3, 4, 5] (by decide)
      true 30 40⟩

/-- C8 as stated fails for a frame sent in two slices: after `Encode`, a first `SendData` call
on five bytes emits shards 0 and 1, and a second call on one byte emits shard 2, which carries
`start_of_slice` although it is not the first shard of the frame. -/
theorem C8_counterexample :
    (SendData_calls 4 1 (example_presented.EncodeWith example_encode).state
        [first_slice, last_slice]).map
      (fun r => r.2.map (fun x => (x.frame_idx, x.shard_idx, x.has_flag start_of_slice)))
      = some [(7, 0, true), (7, 1, false), (7, 2, true)] := by
  decide

/-! ## Async Sender -/

/-- One worker iteration on a queue whose front item has a non-empty span. -/
theorem iteration_front (P V : Nat) (hP : 0 < P) (w : SenderWorld) (d : VideoEncoder.data)
    (rest : List VideoEncoder.data) (now_end now_begin : Int)
    (hq : w.sender.pending = d :: rest) (hspan : d.span ≠ []) :
    ∃ e out, (w.streams d.encoder).SendData P V d.span true now_end now_begin = some (e, out) ∧
      VideoEncoder.sender.iteration P V w now_end now_begin
        = some ({ sender := { pending := rest }
                  streams := Function.update w.streams d.encoder e }, some (d, out)) := by
  obtain ⟨t, out, -, hsend⟩ :=
    SendData_returns P V (w.streams d.encoder) d.span true now_end now_begin hP
  refine ⟨_, out, hsend, ?_⟩
  unfold VideoEncoder.sender.iteration
  rw [hq]
  simp only [ne_eq, hspan, not_false_eq_true, if_true, hsend]

/-- One worker iteration either sends the front item and removes it, or leaves the queue as it
is and sends nothing. -/
theorem iteration_queue (P V : Nat) (w w1 : SenderWorld) (now_end now_begin : Int)
    (sent : Option (VideoEncoder.data × List video_stream_data_shard))
    (h : VideoEncoder.sender.iteration P V w now_end now_begin = some (w1, sent)) :
    (sent.map (fun p => p.1)).toList ++ w1.sender.pending = w.sender.pending := by
  unfold VideoEncoder.sender.iteration at h
  split at h
  · rename_i hq
    simp only [Option.some.injEq, Prod.mk.injEq] at h
    rw [← h.1, ← h.2, hq]
    rfl
  · rename_i d rest hq
    split at h
    · split at h
      · exact absurd h (by simp)
      · simp only [Option.some.injEq, Prod.mk.injEq] at h
        rw [← h.1, ← h.2, hq]
        rfl
    · simp only [Option.some.injEq, Prod.mk.injEq] at h
      rw [← h.1, ← h.2]
      rfl

/-- One worker iteration returns when the payload limit is positive. -/
theorem iteration_returns (P V : Nat) (hP : 0 < P) (w : SenderWorld) (now_end now_begin : Int) :
    ∃ r, VideoEncoder.sender.iteration P V w now_end now_begin = some r := by
  cases hq : w.sender.pending with
  | nil =>
    unfold VideoEncoder.sender.iteration
    rw [hq]
    exact ⟨_, rfl⟩
  | cons d rest =>
    by_cases hspan : d.span = []
    · unfold VideoEncoder.sender.iteration
      rw [hq]
      simp only [ne_eq, hspan, not_true_eq_false, if_false]
      exact ⟨_, rfl⟩
    · obtain ⟨e, out, -, hit⟩ := iteration_front P V hP w d rest now_end now_begin hq hspan
      exact ⟨_, hit⟩

/-- Over any sequence of pushes and worker iterations, the items sent so far followed by the
items still queued are the items queued at the start followed by the items pushed. -/
theorem run_sender_order (P V : Nat) (hP : 0 < P) (es : List SenderEvent) :
    ∀ w : SenderWorld, ∃ w1 sent, run_sender P V w es = some (w1, sent) ∧
      sent ++ w1.sender.pending = w.sender.pending ++ pushed_items es := by
  induction es with
  | nil =>
    intro w
    exact ⟨w, [], rfl, by simp [pushed_items]⟩
  | cons ev es ih =>
    intro w
    cases ev with
    | push d =>
      obtain ⟨w1, sent, hr, ho⟩ := ih { w with sender := w.sender.push d }
      refine ⟨w1, sent, hr, ?_⟩
      rw [ho]
      simp [VideoEncoder.sender.push, pushed_items]
    | iteration now_end now_begin =>
      obtain ⟨r, hit⟩ := iteration_returns P V hP w now_end now_begin
      obtain ⟨w1, first⟩ := r
      obtain ⟨w2, later, hr, ho⟩ := ih w1
      have hq := iteration_queue P V w w1 now_end now_begin first hit
      refine ⟨w2, (first.map (fun p => p.1)).toList ++ later, ?_, ?_⟩
      · simp only [run_sender, hit, hr]
      · rw [List.append_assoc, ho, ← List.append_assoc, hq]
        rfl

/-- C9, as the code has it. When the pending queue is non-empty and the span of its front item
is non-empty, one iteration of the worker loop (stop not requested, payload limit positive)
invokes `SendData` of the front item's owning stream on the front item's span with
`end_of_frame` true, and then removes exactly that item, the remaining items keeping their
order. Consequently, over every sequence of pushes and iterations started with an empty queue,
the items sent so far followed by the items still pending are the items pushed, in push order:
the items sent form an initial segment of the items pushed. -/
theorem C9_sender_fifo (P V : Nat) (hP : 0 < P) :
    (∀ (w : SenderWorld) (d : VideoEncoder.data) (rest : List VideoEncoder.data)
        (now_end now_begin : Int),
        w.sender.pending = d :: rest → d.span ≠ [] →
        ∃ e out,
          (w.streams d.encoder).SendData P V d.span true now_end now_begin = some (e, out) ∧
          VideoEncoder.sender.iteration P V w now_end now_begin
            = some ({ sender := { pending := rest }
                      streams := Function.update w.streams d.encoder e }, some (d, out))) ∧
      (∀ (w : SenderWorld) (es : List SenderEvent), w.sender.pending = [] →
        ∃ w1 sent, run_sender P V w es = some (w1, sent) ∧
          sent ++ w1.sender.pending = pushed_items es) := by
  refine ⟨fun w d rest now_end now_begin hq hspan =>
    iteration_front P V hP w d rest now_end now_begin hq hspan, ?_⟩
  intro w es hempty
  obtain ⟨w1, sent, hr, ho⟩ := run_sender_order P V hP es w
  rw [hempty, List.nil_append] at ho
  exact ⟨w1, sent, hr, ho⟩

/-- C9 on two pushes with worker iterations around them. -/
theorem C9_sender_fifo_witness :
    (0 < 4 ∧ idle_world.sender.pending = []) ∧
      ∃ w1 sent, run_sender 4 1 idle_world sender_events = some (w1, sent) ∧
        sent ++ w1.sender.pending = pushed_items sender_events :=
  ⟨⟨by decide, by decide⟩, (C9_sender_fifo 4 1 (by decide)).2 idle_world sender_events rfl⟩

/-- C9 as stated fails when the front item has an empty span: the queue is non-empty, yet the
iteration invokes `SendData` for no item and removes nothing. -/
theorem C9_counterexample :
    stalled_world.sender.pending ≠ [] ∧
      (VideoEncoder.sender.iteration 4 1 stalled_world 30 40).map
          (fun r => (r.1.sender.pending, r.2))
        = some (stalled_world.sender.pending, none) := by
  decide

end wivrn
